import Mathlib

/-!
# Verification of the gedcom-to-csv tree-to-relational flattening engine

A shallow embedding of the conversion script (`src/unnamed/part_000`, the
current engine; `src/convertGedcom.js` is an earlier near-duplicate of the
same engine).  The script walks a list of parsed top-level nodes and builds
relational tables: per-tag record tables, junction tables for foreign keys,
and deduplicated promoted-value tables.

Modelling conventions, fixed once for the whole file:

* JavaScript objects used as string-keyed dictionaries (`tables`,
  `promotedValueTables`, row objects, `promotedValueTables[t].rows`) are
  modelled as insertion-ordered association lists with own-property
  semantics; property insertion keeps the first position of an existing key
  and overwrites its value, exactly as JS objects do.
* A row cell is `Option String`: `none` models the JS value `null`.  A key
  that is absent models the JS value `undefined`; assigning `undefined` to a
  key (`record[c] = undefined`) is modelled as not storing the key, which is
  observationally equal in this program (the only reads are `!== undefined`
  tests, truthiness tests, and per-column CSV extraction, none of which
  distinguish an absent key from a key holding `undefined`).
* `Set` objects (column sets, `baseTableNames`, the promoted-tag sets) are
  insertion-ordered lists with membership-tested insertion.  Note that
  `Set.prototype.add` takes a single argument; the integration pass's
  `columns.add(...columns)` therefore adds only the first spread element,
  and is modelled that way.
* Platform primitives (the V8 `Date` string parser, `toISOString`,
  `String.prototype.split` on the constructed RegExp, decimal rendering of
  numbers) are modelled concretely by their ECMAScript/V8 behaviour on the
  value shapes this program exercises, assuming a UTC environment; see the
  doc comments on `jsDateParse`, `toISODate`, `jsSplitDelims`, `natToString`.
* The script's functions presuppose at a few points that a table is present
  in the registry (`tables[tag].columns.add`, `tables[table].rows.push`);
  every call site establishes this.  The embedding makes those operations
  total by treating the absent-table case as a no-op (`aModify`).
-/

set_option autoImplicit false

namespace GedcomToCsv

/-- A parsed tree element as delivered by the external parser: `tag`,
optional `pointer`, optional `value` (`none` models JS `null`) and ordered
`children`. -/
inductive Node where
  | mk (tag : String) (pointer : Option String) (value : Option String)
      (children : List Node)

def Node.tag : Node → String
  | .mk t _ _ _ => t

def Node.pointer : Node → Option String
  | .mk _ p _ _ => p

def Node.value : Node → Option String
  | .mk _ _ v _ => v

def Node.children : Node → List Node
  | .mk _ _ _ cs => cs

/-! ## String-keyed dictionaries (JS objects) and ordered sets (JS `Set`) -/

/-- Own-property read of a JS object modelled as an association list. -/
def aGet {α : Type} (m : List (String × α)) (k : String) : Option α :=
  match m with
  | [] => none
  | (k', v) :: rest => if k' = k then some v else aGet rest k

/-- Property write: an existing key keeps its position and gets the new
value, a new key is appended — JS object insertion order. -/
def aSet {α : Type} (m : List (String × α)) (k : String) (v : α) :
    List (String × α) :=
  match m with
  | [] => [(k, v)]
  | (k', v') :: rest =>
      if k' = k then (k', v) :: rest else (k', v') :: aSet rest k v

/-- Update the value at key `k` in place when present; no-op when absent
(call sites of the script guarantee presence). -/
def aModify {α : Type} (m : List (String × α)) (k : String) (f : α → α) :
    List (String × α) :=
  m.map fun e => if e.1 = k then (e.1, f e.2) else e

/-- `Set.prototype.add`: append the element unless already a member
(insertion order preserved). -/
def setAdd (xs : List String) (x : String) : List String :=
  if x ∈ xs then xs else xs ++ [x]

/-! ## Rows, tables, registry -/

/-- A row: a JS object mapping column names to cells.  A cell of `none`
models JS `null`; an absent key models `undefined`. -/
abbrev Row := List (String × Option String)

/-- `record[c]`: `some cell` when the key is present (cell `none` = JS
`null`), `none` when the key is absent (JS `undefined`). -/
def rowGet (r : Row) (c : String) : Option (Option String) :=
  aGet r c

def rowSet (r : Row) (c : String) (v : Option String) : Row :=
  aSet r c v

/-- `record[c] = e` where `e` may be `undefined` (outer `none`): assigning
`undefined` is observationally a no-op (see the file header). -/
def rowAssign (r : Row) (c : String) (e : Option (Option String)) : Row :=
  match e with
  | none => r
  | some v => aSet r c v

/-- JS truthiness of `record[c]`: `undefined`, `null` and `""` are falsy. -/
def truthyCell (x : Option (Option String)) : Bool :=
  match x with
  | some (some s) => !(s == "")
  | _ => false

/-- A table under construction: ordered rows and an insertion-ordered
column set. -/
structure Table where
  rows : List Row
  columns : List String
deriving DecidableEq, Repr

/-- A promoted-value table: rows keyed by the raw value string
(JS coerces the `null` key to `"null"`), plus a column set. -/
structure PVTable where
  rows : List (String × Row)
  columns : List String
deriving DecidableEq, Repr

/-- The mutable state of one conversion run: the main table registry and
the promoted-value tables, both insertion-ordered. -/
structure St where
  tables : List (String × Table)
  pvTables : List (String × PVTable)
deriving DecidableEq, Repr

/-- The configuration surface consumed by the engine: `-d` fallback date
delimiters, `-p` parents table, `-n` copy of individual names. -/
structure Config where
  forceDateDelims : Option (List String)
  parentsTable : Bool
  copyIndividualNames : Bool
deriving DecidableEq, Repr

/-- `LINK_ATTRIBUTES`: the fixed cross-reference tag → target table map. -/
def LINK_ATTRIBUTES (tag : String) : Option String :=
  if tag = "CHIL" then some "INDI"
  else if tag = "FAMC" then some "FAM"
  else if tag = "FAMS" then some "FAM"
  else none

/-- `PROMOTED_VALUES`: per source table, the set of child tags promoted to
deduplicated value tables (only `INDI` has one). -/
def PROMOTED_VALUES (tableName : String) : List String :=
  if tableName = "INDI" then
    ["TITL", "RELI", "_EMPLOY", "BLES", "_DCAUSE", "DEAT", "OCCU", "EDUC",
     "_MDCL"]
  else []

/-- JS coercion of a property key: the `null` value keys as `"null"`. -/
def vKey (v : Option String) : String :=
  match v with
  | some s => s
  | none => "null"

/-! ## Decimal rendering of numbers (JS `ToString` on a non-negative
integer, as used by template literals such as `` `@${tag}${count}@` ``) -/

def digitChar (d : Nat) : Char :=
  Char.ofNat (48 + d)

/-- Decimal digit list of `n`, most significant first; the first argument is
fuel (`n + 1` suffices since `n / 10 < n` for `n ≥ 10`). -/
def natDigitsGo : Nat → Nat → List Char
  | 0, _ => []
  | fuel + 1, m =>
      if m < 10 then [digitChar m]
      else natDigitsGo fuel (m / 10) ++ [digitChar (m % 10)]

def natDigits (n : Nat) : List Char :=
  natDigitsGo (n + 1) n

/-- ECMAScript `ToString` of a non-negative integer: its decimal digits. -/
def natToString (n : Nat) : String :=
  String.mk (natDigits n)

/-- Decimal value of a digit list (used only to prove `natToString`
injective). -/
def decVal (cs : List Char) : Nat :=
  cs.foldl (fun a c => 10 * a + (c.toNat - 48)) 0

/-! ## Calendar arithmetic (proleptic Gregorian, as ECMAScript dates use)

`daysFromCivil`/`civilFromDays` convert between a calendar date and the
count of days since 1970-01-01 (Howard Hinnant's algorithms, written with
Euclidean division so that negative years round correctly). -/

def daysFromCivil (y m d : Int) : Int :=
  let y' := if m ≤ 2 then y - 1 else y
  let era := Int.ediv y' 400
  let yoe := y' - era * 400
  let mp := if m > 2 then m - 3 else m + 9
  let doy := Int.ediv (153 * mp + 2) 5 + d - 1
  let doe := yoe * 365 + Int.ediv yoe 4 - Int.ediv yoe 100 + doy
  era * 146097 + doe - 719468

def civilFromDays (z : Int) : Int × Int × Int :=
  let z' := z + 719468
  let era := Int.ediv z' 146097
  let doe := z' - era * 146097
  let yoe :=
    Int.ediv (doe - Int.ediv doe 1460 + Int.ediv doe 36524 -
      Int.ediv doe 146096) 365
  let y := yoe + era * 400
  let doy := doe - (365 * yoe + Int.ediv yoe 4 - Int.ediv yoe 100)
  let mp := Int.ediv (5 * doy + 2) 153
  let d := doy - Int.ediv (153 * mp + 2) 5 + 1
  let m := if mp < 10 then mp + 3 else mp - 9
  (if m ≤ 2 then y + 1 else y, m, d)

def msPerDay : Int := 86400000

/-- Left-pad the decimal rendering of a non-negative integer with zeros. -/
def padNat (width : Nat) (n : Nat) : String :=
  let s := natToString n
  String.mk (List.replicate (width - s.length) '0') ++ s

/-- The date part of `Date.prototype.toISOString` of a time value in
milliseconds: the day is `floor(t / msPerDay)` (Euclidean division), the
date `YYYY-MM-DD` (years of this program lie in 0..9999, where ISO output
uses exactly four digits). -/
def toISODate (ms : Int) : String :=
  let (y, m, d) := civilFromDays (Int.ediv ms msPerDay)
  padNat 4 y.toNat ++ "-" ++ padNat 2 m.toNat ++ "-" ++ padNat 2 d.toNat

/-! ## The platform date parser

`new Date(string)` delegates to the host's parser (V8 here).  The model
below covers, assuming a UTC environment, the two string shapes this
program's inputs exercise: an ISO year `"YYYY"` (midnight UTC of Jan 1) and
the lenient `"D MON YYYY"` form (V8 parses it at local midnight, which
equals UTC midnight under TZ=UTC); surrounding whitespace is tolerated, as
V8's lenient parser skips it.  Every other string is treated as
unparseable, i.e. a `NaN` time value. -/

def MONTHS : List String :=
  ["JAN", "FEB", "MAR", "APR", "MAY", "JUN", "JUL", "AUG", "SEP", "OCT",
   "NOV", "DEC"]

def monthNumber (cs : List Char) : Option Nat :=
  match MONTHS.indexOf? (String.mk (cs.map Char.toUpper)) with
  | some i => some (i + 1)
  | none => none

def allDigits (cs : List Char) : Bool :=
  cs.all Char.isDigit && !cs.isEmpty

def trimChars (cs : List Char) : List Char :=
  ((cs.dropWhile Char.isWhitespace).reverse.dropWhile
    Char.isWhitespace).reverse

/-- Split a character list at every occurrence of `sep`. -/
def splitChar (sep : Char) : List Char → List (List Char)
  | [] => [[]]
  | c :: cs =>
      match splitChar sep cs, decEq c sep with
      | r, isTrue _ => [] :: r
      | [], isFalse _ => [[c]]
      | p :: ps, isFalse _ => (c :: p) :: ps

/-- `"D MON YYYY"`: a 1-2 digit day, a month name, a 4-digit year. -/
def parseDayMonthYear (cs : List Char) : Option (Nat × Nat × Nat) :=
  match splitChar ' ' cs with
  | [ds, mons, ys] =>
      if allDigits ds ∧ ds.length ≤ 2 ∧ allDigits ys ∧ ys.length = 4 then
        match monthNumber mons with
        | some m =>
            let d := decVal ds
            if 1 ≤ d ∧ d ≤ 31 then some (d, m, decVal ys) else none
        | none => none
      else none
  | _ => none

/-- Millisecond time value of `new Date(s)` for a string, `none` for an
invalid date (see the section comment for the modelled shapes). -/
def jsDateParse (s : String) : Option Int :=
  let t := trimChars s.data
  if allDigits t ∧ t.length = 4 then
    some (msPerDay * daysFromCivil (decVal t) 1 1)
  else
    match parseDayMonthYear t with
    | some (d, m, y) => some (msPerDay * daysFromCivil y m d)
    | none => none

/-! ## The fallback-split regular expression

`FORCE_DATE_REGEX` is built as ``new RegExp(delims.map(d => `(?:\s*${d}\s*)`).join('|'), 'gi')``.
In a JS template literal the escape `\s` denotes the plain letter `s`, so
each delimiter is wrapped in `s*…s*` — a run of the letter s/S (the scan is
case-insensitive), not whitespace.  `.` inside a delimiter is the RegExp
wildcard; the delimiters this program configures contain no other RegExp
metacharacter, and none of the alternatives can match the empty string
(each contains at least one literal or wildcard).  The matcher below
implements exactly these constructs with the RegExp semantics
`String.prototype.split` relies on: leftmost match, alternatives tried in
order, greedy `*` with backtracking. -/

inductive RElem where
  | lit (c : Char)
  | anyChar
  | sStar
deriving DecidableEq, Repr

def lcEq (a b : Char) : Bool :=
  a.toLower == b.toLower

/-- Match a pattern at the head of `s`, returning the unconsumed suffix of
the (greedy, backtracking) match.  The first argument is fuel; every step
shrinks `p.length + s.length`, so `p.length + s.length + 1` suffices. -/
def matchPatGo : Nat → List RElem → List Char → Option (List Char)
  | 0, _, _ => none
  | fuel + 1, p, s =>
      match p, s with
      | [], s => some s
      | .lit _ :: _, [] => none
      | .lit c :: ps, x :: rest =>
          if lcEq x c then matchPatGo fuel ps rest else none
      | .anyChar :: _, [] => none
      | .anyChar :: ps, _ :: rest => matchPatGo fuel ps rest
      | .sStar :: ps, [] => matchPatGo fuel ps []
      | .sStar :: ps, x :: rest =>
          if lcEq x 's' then
            match matchPatGo fuel (.sStar :: ps) rest with
            | some r => some r
            | none => matchPatGo fuel ps (x :: rest)
          else matchPatGo fuel ps (x :: rest)

def matchPat (p : List RElem) (s : List Char) : Option (List Char) :=
  matchPatGo (p.length + s.length + 1) p s

/-- The RegExp alternation: first alternative that matches wins. -/
def firstAlt (pats : List (List RElem)) (s : List Char) :
    Option (List Char) :=
  match pats with
  | [] => none
  | p :: ps =>
      match matchPat p s with
      | some r => some r
      | none => firstAlt ps s

/-- `String.prototype.split(regexp)`: scan left to right; at the first
position where some alternative matches, close the current piece and resume
after the match.  Fuel `s.length + 1` suffices since every step consumes at
least one character (no alternative of the constructed pattern matches the
empty string; the impossible empty-match case is treated as no match). -/
def splitGo (pats : List (List RElem)) : Nat → List Char → List Char →
    List String
  | 0, _, acc => [String.mk acc.reverse]
  | fuel + 1, s, acc =>
      match s with
      | [] => [String.mk acc.reverse]
      | x :: rest =>
          match firstAlt pats s with
          | some r =>
              if r.length < s.length then
                String.mk acc.reverse :: splitGo pats fuel r []
              else
                splitGo pats fuel rest (x :: acc)
          | none => splitGo pats fuel rest (x :: acc)

/-- The wrapped pattern of one configured delimiter (see the section
comment): `s*` … literal/wildcard characters … `s*`. -/
def delimPattern (d : String) : List RElem :=
  [.sStar] ++
    d.data.map (fun c => if c = '.' then RElem.anyChar else .lit c) ++
    [.sStar]

/-- `rawValue.split(FORCE_DATE_REGEX)` for the configured delimiters. -/
def jsSplitDelims (ds : List String) (s : String) : List String :=
  splitGo (ds.map delimPattern) (s.data.length + 1) s.data []

/-! ## The Value Formatter -/

/-- `formatValue(tag, value)`.  The result is `none` for JS `undefined`
(date fallback configured but no fragment parses — the "no value" case),
otherwise `some cell`.  For a `DATE` tag: `new Date(null)` is the epoch, so
a `null` value renders as `"1970-01-01"`; a parseable string renders as its
ISO date part; otherwise, with fallback delimiters configured, the value is
split, each fragment parsed, failures discarded, and the truncated mean of
the surviving time values rendered (`new Date(v)` truncates its numeric
argument toward zero); with no fallback the raw value is returned. -/
def formatValue (delims : Option (List String)) (tag : String)
    (v : Option String) : Option (Option String) :=
  if tag = "DATE" then
    match v with
    | none => some (some (toISODate 0))
    | some str =>
        match jsDateParse str with
        | some ms => some (some (toISODate ms))
        | none =>
            match delims with
            | some ds =>
                let nums := (jsSplitDelims ds str).filterMap jsDateParse
                if nums.isEmpty then none
                else
                  some (some (toISODate
                    (Int.tdiv (nums.foldl (· + ·) 0) nums.length)))
            | none => some (some str)
  else some v

/-! ## The Table Registry operations -/

/-- `if (!tables[name]) tables[name] = { rows: [], columns }`. -/
def ensureTable (st : St) (name : String) (cols : List String) : St :=
  match aGet st.tables name with
  | some _ => st
  | none => { st with tables := aSet st.tables name ⟨[], cols⟩ }

/-- `tables[name].rows.push(row)` (the call sites guarantee presence). -/
def pushRow (st : St) (name : String) (row : Row) : St :=
  { st with
    tables := aModify st.tables name fun tb => { tb with rows := tb.rows ++ [row] } }

/-- `tables[name].rows.push(...rows)`. -/
def pushRows (st : St) (name : String) (rs : List Row) : St :=
  { st with
    tables := aModify st.tables name fun tb => { tb with rows := tb.rows ++ rs } }

/-- `tables[name].columns.add(col)`. -/
def addColumn (st : St) (name : String) (col : String) : St :=
  { st with
    tables := aModify st.tables name fun tb => { tb with columns := setAdd tb.columns col } }

/-- `addJunctionRow(sourceTable, sourceId, targetTable, targetId)`: ensure
the table named `sourceTable + "_" + targetTable` (created with the two
columns — one column if they coincide) and append the row
`{[sourceTable]: sourceId, [targetTable]: targetId}` (a single key if the
names coincide, the later write winning, as in a JS object literal). -/
def addJunctionRow (st : St) (sourceTable : String) (sourceId : Option String)
    (targetTable : String) (targetId : Option String) : St :=
  let junctionTable := sourceTable ++ "_" ++ targetTable
  let st := ensureTable st junctionTable (setAdd (setAdd [] sourceTable) targetTable)
  pushRow st junctionTable (aSet (aSet [] sourceTable sourceId) targetTable targetId)

/-- The synthesized id of the `count`-th promoted value of a table. -/
def genId (targetTable : String) (count : Nat) : String :=
  "@gedcom-to-csv_generated_" ++ targetTable ++ natToString count ++ "@"

/-- The stored promoted-value row `{ id, [targetTable]: targetValue }`. -/
def mkPVRow (targetTable : String) (id : String) (targetValue : Option String) : Row :=
  aSet (aSet [] "id" (some id)) targetTable targetValue

/-- The promoted-value table of `targetTable`, created with columns
`{'id', targetTable}` when absent (`if (!promotedValueTables[targetTable])`). -/
def pvTableFor (st : St) (targetTable : String) : PVTable :=
  match aGet st.pvTables targetTable with
  | some pv => pv
  | none => ⟨[], setAdd (setAdd [] "id") targetTable⟩

/-- The promoted-value table after the `if (!rows[targetValue])` insertion:
a missing value gets a row with an id synthesized from the current row
count. -/
def pvInserted (st : St) (targetTable : String) (targetValue : Option String) :
    PVTable :=
  let pv0 := pvTableFor st targetTable
  match aGet pv0.rows (vKey targetValue) with
  | some _ => pv0
  | none =>
      { pv0 with
        rows := pv0.rows ++
          [(vKey targetValue,
            mkPVRow targetTable (genId targetTable pv0.rows.length) targetValue)] }

/-- `promotedValueTables[targetTable].rows[targetValue].id`, read after the
insertion. -/
def pvTargetId (st : St) (targetTable : String) (targetValue : Option String) :
    Option String :=
  match aGet (pvInserted st targetTable targetValue).rows (vKey targetValue) with
  | some r => (rowGet r "id").getD none
  | none => none

/-- `addPromotedValue(sourceTable, sourceId, targetTable, targetValue)`:
ensure the promoted-value table, insert a row keyed by the raw value when
absent (its id synthesized from the current row count), then emit a
junction row to the stored row's id. -/
def addPromotedValue (st : St) (sourceTable : String) (sourceId : Option String)
    (targetTable : String) (targetValue : Option String) : St :=
  addJunctionRow
    { st with
      pvTables := aSet st.pvTables targetTable (pvInserted st targetTable targetValue) }
    sourceTable sourceId targetTable (pvTargetId st targetTable targetValue)

/-- The id of a promoted sub-record: its own pointer when truthy (JS `||`
treats `null` and `""` as absent), otherwise `@<tag><n>@` where `n` is the
tag's table row count at this moment — before the record's children are
flattened and before its own row is appended. -/
def promotedRecordId (st : St) (tag : String) (pointer : Option String) : String :=
  let fallback :=
    "@" ++ tag ++
      natToString (match aGet st.tables tag with
        | some tb => tb.rows.length
        | none => 0) ++ "@"
  match pointer with
  | some p => if p = "" then fallback else p
  | none => fallback

/-- The `while (record[column] !== undefined)` collision loop: the first
candidate in `tag, tag2, tag3, …` that is not yet a key of the row.  Fuel
`record.length + 1` suffices: the candidates are pairwise distinct, so one
of the first `record.length + 1` is unoccupied. -/
def freshFromAux (record : Row) (tag : String) : Nat → Nat → String
  | 0, i => tag ++ natToString i
  | fuel + 1, i =>
      let c := tag ++ natToString i
      if (rowGet record c).isNone then c else freshFromAux record tag fuel (i + 1)

def freshColumn (record : Row) (tag : String) : String :=
  if (rowGet record tag).isNone then tag
  else freshFromAux record tag (record.length + 1) 2

/-! ## The Promotion Engine and Record Flattener

`parseChild` is the per-child rule chain; its promoted-record rule
(`parsePromotedRecord` in the source, inlined here so the mutual recursion
is structural) recursively flattens the child through `parseChildren`. -/

mutual

/-- `parseChild(tag, pointer, record, childRecord)`: the six-rule priority
chain.  Returns the updated registry state and the (possibly extended)
parent row. -/
def parseChild (cfg : Config) (base : List String) (st : St) (tag : String)
    (pointer : Option String) (record : Row) : Node → St × Row
  | .mk ctag cptr cval cchildren =>
      if (LINK_ATTRIBUTES ctag).isSome then
        -- rule 1: link
        (addJunctionRow st tag pointer ((LINK_ATTRIBUTES ctag).getD "") cval, record)
      else if ctag ∈ base then
        -- rule 2: sibling table
        (addJunctionRow st tag pointer ctag cval, record)
      else if ctag ∈ PROMOTED_VALUES tag then
        -- rule 3: promoted value
        (addPromotedValue st tag pointer ctag cval, record)
      else if !cchildren.isEmpty then
        -- rule 4: promoted record (parsePromotedRecord in the source)
        let st := ensureTable st ctag (setAdd (setAdd [] "id") ctag)
        let id := promotedRecordId st ctag cptr
        let st := addJunctionRow st tag pointer ctag (some id)
        let row0 := rowAssign (aSet [] "id" (some id)) ctag
          (formatValue cfg.forceDateDelims ctag cval)
        let res := parseChildren cfg base st ctag (some id) row0 cchildren
        (pushRow res.1 ctag res.2, record)
      else if cval = none then
        -- rule 5: null-valued leaf, skipped (diagnostic log only)
        (st, record)
      else
        -- rule 6: plain column, with numeric-suffix collision resolution
        let column := freshColumn record ctag
        let record := rowAssign record column
          (formatValue cfg.forceDateDelims ctag cval)
        (addColumn st tag column, record)

/-- The `forEach` over a promoted record's children. -/
def parseChildren (cfg : Config) (base : List String) (st : St) (tag : String)
    (pointer : Option String) (record : Row) : List Node → St × Row
  | [] => (st, record)
  | c :: cs =>
      let res := parseChild cfg base st tag pointer record c
      parseChildren cfg base res.1 tag pointer res.2 cs

end

/-! ## Extra Table Plugins -/

/-- The built-in `PARENTS` plugin of `EXTRA_TABLE_PARSERS`: for a `FAM`
node, one `{child, parent}` row per `CHIL` child and per truthy spouse
column (`WIFE`, then `HUSB`) of the finished row. -/
def parentsRows (record : Row) (tag : String) (children : List Node) : List Row :=
  if tag = "FAM" then
    children.foldl
      (fun results c =>
        if c.tag = "CHIL" then
          let results :=
            match rowGet record "WIFE" with
            | some (some w) =>
                if w = "" then results
                else results ++ [[("child", c.value), ("parent", some w)]]
            | _ => results
          match rowGet record "HUSB" with
          | some (some h) =>
              if h = "" then results
              else results ++ [[("child", c.value), ("parent", some h)]]
          | _ => results
        else results)
      []
  else []

/-- The `Object.entries(EXTRA_TABLE_PARSERS).forEach` step: with the
parents-table option the one registered plugin runs and its returned rows
are appended to its table. -/
def runPlugins (cfg : Config) (st : St) (record : Row) (node : Node) : St :=
  if cfg.parentsTable then
    pushRows st "PARENTS" (parentsRows record node.tag node.children)
  else st

/-! ## Record Flattener (the per-top-level-node `forEach` body) -/

/-- The children loop of a top-level node: `parseChild`, then the
`copy_individual_names` branch (`tables.INDI.columns.add('NAME');
record.NAME = childRecord.value`). -/
def processTopChildren (cfg : Config) (base : List String) (st : St)
    (tag : String) (pointer : Option String) (record : Row)
    (children : List Node) : St × Row :=
  children.foldl
    (fun (acc : St × Row) c =>
      let res := parseChild cfg base acc.1 tag pointer acc.2 c
      if cfg.copyIndividualNames ∧ tag = "INDI" ∧ c.tag = "NAME" then
        (addColumn res.1 "INDI" "NAME", rowSet res.2 "NAME" c.value)
      else res)
    (st, record)

/-- Flatten one top-level node: ensure its table, build its row from the
pointer and children, append the row, then run the Extra Table Plugins. -/
def parseRecord (cfg : Config) (base : List String) (st : St) (node : Node) : St :=
  let st1 := ensureTable st node.tag (setAdd [] "id")
  let res := processTopChildren cfg base st1 node.tag node.pointer
    [("id", node.pointer)] node.children
  runPlugins cfg (pushRow res.1 node.tag res.2) res.2 node

/-! ## The whole run -/

/-- `baseTableNames`: the set of top-level tags, in first-seen order. -/
def baseTableNames (records : List Node) : List String :=
  records.foldl (fun s r => setAdd s r.tag) []

/-- The initial registry: `{...EXTRA_TABLES}`. -/
def initSt (cfg : Config) : St :=
  ⟨if cfg.parentsTable then [("PARENTS", ⟨[], ["child", "parent"]⟩)] else [],
   []⟩

/-- All top-level nodes flattened, before the Integration Pass. -/
def flattenAll (cfg : Config) (records : List Node) : St :=
  records.foldl (parseRecord cfg (baseTableNames records)) (initSt cfg)

/-- The Integration Pass: merge every promoted-value table into the main
registry.  When a table of the name already exists, the source executes
`tables[table].columns.add(...columns)` — `Set.prototype.add` takes a
single argument, so only the first element of the promoted table's column
set (always `'id'`) is added — and appends the deduplicated rows; otherwise
the promoted-value table's rows and columns become the new table. -/
def integratePVs (st : St) : St :=
  st.pvTables.foldl
    (fun acc (entry : String × PVTable) =>
      match aGet acc.tables entry.1 with
      | some _ =>
          let acc :=
            { acc with
              tables := aModify acc.tables entry.1 fun tb =>
                { tb with
                  columns :=
                    match entry.2.columns with
                    | [] => tb.columns
                    | c :: _ => setAdd tb.columns c } }
          pushRows acc entry.1 (entry.2.rows.map (·.2))
      | none =>
          { acc with
            tables := aSet acc.tables entry.1 ⟨entry.2.rows.map (·.2), entry.2.columns⟩ })
    st

/-- The complete table-construction phase of one conversion run. -/
def convertTables (cfg : Config) (records : List Node) : St :=
  integratePVs (flattenAll cfg records)

/-! ## Concrete run inputs used by counterexamples and bug witnesses -/

/-- The empty configuration: no fallback delimiters, no extra tables. -/
def cfg0 : Config := ⟨none, false, false⟩

/-- The copy-individual-names configuration. -/
def cfgN : Config := ⟨none, false, true⟩

/-- The parents-table configuration. -/
def cfgP : Config := ⟨none, true, false⟩

/-- C10 input: a pointer-less promoted record of tag `T` nesting another
pointer-less record of the same tag. -/
def rs10 : List Node :=
  [.mk "X" (some "@R@") none
    [.mk "T" none none
      [.mk "T" none none
        [.mk "Z" none (some "v") []]]]]

/-- C2 input: the record tagged `""` with an `EMPLOY` child makes the
sibling-table rule create a junction table literally named `_EMPLOY`; the
`INDI` record's `_EMPLOY` child then accumulates a promoted-value table of
the same name, which the Integration Pass merges into it. -/
def rsC2 : List Node :=
  [.mk "" (some "@A@") none [.mk "EMPLOY" none (some "@E@") []],
   .mk "EMPLOY" (some "@E@") none [],
   .mk "INDI" (some "@I@") none [.mk "_EMPLOY" none (some "clerk") []]]

/-- C8 input: an individual with two NAME children. -/
def rsC8 : List Node :=
  [.mk "INDI" (some "@I1@") none
    [.mk "NAME" none (some "A") [], .mk "NAME" none (some "B") []]]

/-- C4 input: a top-level `FOO` record with three children tagged `id`. -/
def rsC4 : List Node :=
  [.mk "FOO" (some "@P@") none
    [.mk "id" none (some "a") [], .mk "id" none (some "b") [],
     .mk "id" none (some "c") []]]

/-! ## Lemmas on dictionaries and sets -/

@[simp] theorem aGet_nil {α : Type} (k : String) : aGet ([] : List (String × α)) k = none := rfl

@[simp] theorem aGet_cons {α : Type} (e : String × α) (m : List (String × α)) (k : String) :
    aGet (e :: m) k = if e.1 = k then some e.2 else aGet m k := by
  cases e; rfl

@[simp] theorem aSet_nil {α : Type} (k : String) (v : α) :
    aSet ([] : List (String × α)) k v = [(k, v)] := rfl

@[simp] theorem aSet_cons {α : Type} (e : String × α) (m : List (String × α)) (k : String) (v : α) :
    aSet (e :: m) k v = if e.1 = k then (e.1, v) :: m else e :: aSet m k v := by
  cases e; rfl

@[simp] theorem aModify_nil {α : Type} (k : String) (f : α → α) :
    aModify ([] : List (String × α)) k f = [] := rfl

@[simp] theorem aModify_cons {α : Type} (e : String × α) (m : List (String × α)) (k : String) (f : α → α) :
    aModify (e :: m) k f = (if e.1 = k then (e.1, f e.2) else e) :: aModify m k f := rfl

@[simp] theorem aGet_aSet_self {α : Type} (m : List (String × α)) (k : String) (v : α) :
    aGet (aSet m k v) k = some v := by
  induction m with
  | nil => simp
  | cons e rest ih =>
      by_cases h : e.1 = k <;> simp [h, ih]

theorem aGet_aSet_ne {α : Type} (m : List (String × α)) (k k' : String) (v : α)
    (h : k ≠ k') : aGet (aSet m k v) k' = aGet m k' := by
  induction m with
  | nil => simp [h]
  | cons e rest ih =>
      by_cases he : e.1 = k
      · simp [he, h, ih]
      · simp [he, ih]

theorem aGet_aModify_self {α : Type} (m : List (String × α)) (k : String) (f : α → α) :
    aGet (aModify m k f) k = (aGet m k).map f := by
  induction m with
  | nil => simp
  | cons e rest ih =>
      by_cases h : e.1 = k <;> simp [h, ih]

theorem aGet_aModify_ne {α : Type} (m : List (String × α)) (k k' : String) (f : α → α)
    (h : k ≠ k') : aGet (aModify m k f) k' = aGet m k' := by
  induction m with
  | nil => simp
  | cons e rest ih =>
      by_cases he : e.1 = k
      · have h2 : e.1 ≠ k' := by rw [he]; exact h
        simp [he, h2, h, ih]
      · simp [he, ih]

theorem aModify_congr_id {α : Type} (m : List (String × α)) (k : String) (f : α → α)
    (hf : ∀ a, f a = a) : aModify m k f = m := by
  induction m with
  | nil => rfl
  | cons e rest ih =>
      obtain ⟨a, b⟩ := e
      by_cases h : a = k <;> simp [h, hf, ih]

theorem aGet_append_of_none {α : Type} (xs ys : List (String × α)) (k : String)
    (h : aGet xs k = none) : aGet (xs ++ ys) k = aGet ys k := by
  induction xs with
  | nil => simp
  | cons e rest ih =>
      by_cases he : e.1 = k
      · simp [he] at h
      · simp only [aGet_cons, he, if_false, List.cons_append] at h ⊢
        exact ih h

theorem aGet_mem {α : Type} (m : List (String × α)) (k : String) (v : α)
    (h : aGet m k = some v) : (k, v) ∈ m := by
  induction m with
  | nil => simp [aGet] at h
  | cons e rest ih =>
      by_cases he : e.1 = k
      · simp only [aGet_cons, he, if_true, Option.some.injEq] at h
        have : e = (k, v) := by
          calc e = (e.1, e.2) := rfl
            _ = (k, v) := by rw [he, h]
        exact this ▸ List.mem_cons_self e rest
      · simp only [aGet_cons, he, if_false] at h
        exact List.mem_cons_of_mem _ (ih h)

theorem aGet_eq_none_of_forall {α : Type} (m : List (String × α)) (k : String)
    (h : ∀ e ∈ m, e.1 ≠ k) : aGet m k = none := by
  induction m with
  | nil => rfl
  | cons e rest ih =>
      have h1 : e.1 ≠ k := h e (List.mem_cons_self e rest)
      simp only [aGet_cons, h1, if_false]
      exact ih fun e' he' => h e' (List.mem_cons_of_mem _ he')

theorem forall_of_aGet_eq_none {α : Type} (m : List (String × α)) (k : String)
    (h : aGet m k = none) : ∀ e ∈ m, e.1 ≠ k := by
  induction m with
  | nil => simp
  | cons e rest ih =>
      by_cases he : e.1 = k
      · simp [he] at h
      · simp only [aGet_cons, he, if_false] at h
        intro e' he'
        rcases List.mem_cons.mp he' with rfl | hm
        · exact he
        · exact ih h e' hm

theorem filter_key_nil {α : Type} (m : List (String × α)) (k : String)
    (h : aGet m k = none) : m.filter (fun e => e.1 = k) = [] := by
  rw [List.filter_eq_nil_iff]
  intro e he
  have := forall_of_aGet_eq_none m k h e he
  simpa using this

theorem length_filter_key_of_nodup {α : Type} (m : List (String × α)) (k : String) (v : α)
    (hn : (m.map (fun e => e.1)).Nodup) (h : aGet m k = some v) :
    (m.filter (fun e => e.1 = k)).length = 1 := by
  induction m with
  | nil => simp [aGet] at h
  | cons e rest ih =>
      rcases List.nodup_cons.mp hn with ⟨hnot, hrest⟩
      by_cases he : e.1 = k
      · have hnone : aGet rest k = none := by
          apply aGet_eq_none_of_forall
          intro e' he' hk
          apply hnot
          have h12 : e.1 = e'.1 := by rw [he, hk]
          simpa [h12] using List.mem_map_of_mem (fun x => x.1) he'
        simp [List.filter_cons, he, filter_key_nil rest k hnone]
      · simp only [aGet_cons, he, if_false] at h
        simp [List.filter_cons, he, ih hrest h]

@[simp] theorem mem_setAdd_iff (xs : List String) (x y : String) :
    y ∈ setAdd xs x ↔ y ∈ xs ∨ y = x := by
  unfold setAdd
  by_cases h : x ∈ xs
  · simp only [h, if_true]
    constructor
    · exact Or.inl
    · rintro (hy | rfl) <;> [exact hy; exact h]
  · simp [h]

theorem mem_setAdd_of_mem (xs : List String) (x y : String) (h : y ∈ xs) :
    y ∈ setAdd xs x := (mem_setAdd_iff xs x y).mpr (Or.inl h)

theorem self_mem_setAdd (xs : List String) (x : String) : x ∈ setAdd xs x :=
  (mem_setAdd_iff xs x x).mpr (Or.inr rfl)

/-! ## Lemmas on decimal rendering -/

theorem digitChar_toNat (d : Nat) (h : d < 10) : (digitChar d).toNat = 48 + d := by
  interval_cases d <;> decide

theorem decVal_append_singleton (cs : List Char) (c : Char) :
    decVal (cs ++ [c]) = 10 * decVal cs + (c.toNat - 48) := by
  unfold decVal
  rw [List.foldl_append]
  rfl

theorem decVal_natDigitsGo (fuel m : Nat) (h : m < fuel) :
    decVal (natDigitsGo fuel m) = m := by
  induction fuel generalizing m with
  | zero => omega
  | succ fuel ih =>
      by_cases hm : m < 10
      · simp only [natDigitsGo, hm, if_true]
        unfold decVal
        simp [List.foldl, digitChar_toNat m hm]
      · simp only [natDigitsGo, hm, if_false]
        have hdiv : m / 10 < m := Nat.div_lt_self (by omega) (by omega)
        rw [decVal_append_singleton, ih (m / 10) (by omega),
          digitChar_toNat (m % 10) (Nat.mod_lt m (by omega))]
        omega

theorem decVal_natDigits (n : Nat) : decVal (natDigits n) = n :=
  decVal_natDigitsGo (n + 1) n (Nat.lt_succ_self n)

theorem natDigitsGo_ne_nil (fuel m : Nat) (h : 0 < fuel) : natDigitsGo fuel m ≠ [] := by
  cases fuel with
  | zero => omega
  | succ fuel =>
      by_cases hm : m < 10 <;> simp [natDigitsGo, hm]

theorem natDigits_ne_nil (n : Nat) : natDigits n ≠ [] :=
  natDigitsGo_ne_nil (n + 1) n (Nat.succ_pos n)

theorem natDigitsGo_isDigit (fuel m : Nat) (c : Char) (hc : c ∈ natDigitsGo fuel m) :
    48 ≤ c.toNat ∧ c.toNat ≤ 57 := by
  induction fuel generalizing m with
  | zero => simp [natDigitsGo] at hc
  | succ fuel ih =>
      by_cases hm : m < 10
      · simp only [natDigitsGo, hm, if_true, List.mem_singleton] at hc
        subst hc
        rw [digitChar_toNat m hm]
        omega
      · simp only [natDigitsGo, hm, if_false, List.mem_append, List.mem_singleton] at hc
        rcases hc with hc | hc
        · exact ih (m / 10) hc
        · subst hc
          rw [digitChar_toNat (m % 10) (Nat.mod_lt m (by omega))]
          omega

theorem natDigits_isDigit (n : Nat) (c : Char) (hc : c ∈ natDigits n) :
    48 ≤ c.toNat ∧ c.toNat ≤ 57 :=
  natDigitsGo_isDigit (n + 1) n c hc

theorem natToString_inj (a b : Nat) (h : natToString a = natToString b) : a = b := by
  have hd : natDigits a = natDigits b := congrArg String.data h
  calc a = decVal (natDigits a) := (decVal_natDigits a).symm
    _ = decVal (natDigits b) := by rw [hd]
    _ = b := decVal_natDigits b

/-! ## Lemmas on string shapes -/

theorem data_append3 (x y z : String) :
    (x ++ y ++ z).data = x.data ++ y.data ++ z.data := by
  rw [String.data_append, String.data_append]

/-- A string ending in a decimal digit differs from any string whose last
character is not one. -/
theorem append_natToString_ne (x s : String) (i : Nat)
    (hs : ∀ c, s.data.getLast? = some c → ¬(48 ≤ c.toNat ∧ c.toNat ≤ 57)) :
    x ++ natToString i ≠ s := by
  intro h
  have hd : x.data ++ natDigits i = s.data := by
    have := congrArg String.data h
    rwa [String.data_append] at this
  have hlast : (x.data ++ natDigits i).getLast? = (natDigits i).getLast? :=
    List.getLast?_append_of_ne_nil x.data (natDigits_ne_nil i)
  have hmem : (natDigits i).getLast? = some ((natDigits i).getLast (natDigits_ne_nil i)) :=
    List.getLast?_eq_getLast _ _
  have hdig := natDigits_isDigit i _ (List.getLast_mem (natDigits_ne_nil i))
  have := hs ((natDigits i).getLast (natDigits_ne_nil i)) (by rw [← hd, hlast, hmem])
  exact this hdig

theorem append_natToString_ne_self (x : String) (i : Nat) :
    x ++ natToString i ≠ x := by
  intro h
  have := congrArg String.length h
  rw [String.length_append] at this
  have hlen : (natToString i).length ≠ 0 := by
    unfold natToString
    intro hh
    exact natDigits_ne_nil i (List.length_eq_zero.mp hh)
  omega

theorem append_natToString_inj (x : String) (a b : Nat)
    (h : x ++ natToString a = x ++ natToString b) : a = b := by
  apply natToString_inj
  have hd := congrArg String.data h
  rw [String.data_append, String.data_append] at hd
  have := List.append_cancel_left hd
  calc natToString a = String.mk (natToString a).data := rfl
    _ = String.mk (natToString b).data := by rw [this]
    _ = natToString b := rfl

theorem genId_inj (t : String) (a b : Nat) (h : genId t a = genId t b) : a = b := by
  apply natToString_inj
  have hd := congrArg String.data h
  unfold genId at hd
  simp only [String.data_append, List.append_assoc] at hd
  have h1 := List.append_cancel_left hd
  have h2 := List.append_cancel_left h1
  have h3 := List.append_cancel_right h2
  calc natToString a = String.mk (natToString a).data := rfl
    _ = String.mk (natToString b).data := by rw [h3]
    _ = natToString b := rfl

/-! ## Lemmas on rows and fresh columns -/

theorem rowGet_rowAssign_ne (r : Row) (c c' : String) (e : Option (Option String))
    (h : c ≠ c') : rowGet (rowAssign r c e) c' = rowGet r c' := by
  cases e with
  | none => rfl
  | some v => exact aGet_aSet_ne r c c' v h

theorem rowGet_rowSet_self (r : Row) (c : String) (v : Option String) :
    rowGet (rowSet r c v) c = some v :=
  aGet_aSet_self r c v

theorem rowGet_rowSet_ne (r : Row) (c c' : String) (v : Option String)
    (h : c ≠ c') : rowGet (rowSet r c v) c' = rowGet r c' :=
  aGet_aSet_ne r c c' v h

theorem freshFromAux_shape (record : Row) (tag : String) (fuel i : Nat) :
    ∃ j, freshFromAux record tag fuel i = tag ++ natToString j := by
  induction fuel generalizing i with
  | zero => exact ⟨i, rfl⟩
  | succ fuel ih =>
      unfold freshFromAux
      by_cases h : (rowGet record (tag ++ natToString i)).isNone
      · exact ⟨i, by simp [h]⟩
      · simpa [h] using ih (i + 1)

theorem freshColumn_shape (record : Row) (tag : String) :
    freshColumn record tag = tag ∨
      ∃ j, freshColumn record tag = tag ++ natToString j := by
  unfold freshColumn
  by_cases h : (rowGet record tag).isNone
  · exact Or.inl (by simp [h])
  · exact Or.inr (by simpa [h] using freshFromAux_shape record tag (record.length + 1) 2)

/-- The fresh column of a child tag can only collide with a fixed name `s`
whose last character is no decimal digit (such as `"id"` or `"NAME"`) when
the tag is `s` itself. -/
theorem freshColumn_ne (record : Row) (tag s : String) (hts : tag ≠ s)
    (hs : ∀ c, s.data.getLast? = some c → ¬(48 ≤ c.toNat ∧ c.toNat ≤ 57)) :
    freshColumn record tag ≠ s := by
  rcases freshColumn_shape record tag with h | ⟨j, h⟩
  · rw [h]; exact hts
  · rw [h]; exact append_natToString_ne tag s j hs

/-! ## The Promotion Engine rule chain (C1) -/

/-- The six rules of `parseChild`, in source order. -/
inductive PRule where
  | link
  | sibling
  | promotedValue
  | promotedRecord
  | nullSkip
  | plainColumn
deriving DecidableEq, Repr

/-- The priority of a rule: its position in the `if … else if …` chain. -/
def ruleIdx : PRule → Nat
  | .link => 0
  | .sibling => 1
  | .promotedValue => 2
  | .promotedRecord => 3
  | .nullSkip => 4
  | .plainColumn => 5

/-- The guard of each rule, read off the corresponding condition of
`parseChild` (the fallback rule's guard is `True`). -/
def ruleGuard (base : List String) (tag : String) (c : Node) : PRule → Prop
  | .link => (LINK_ATTRIBUTES c.tag).isSome = true
  | .sibling => c.tag ∈ base
  | .promotedValue => c.tag ∈ PROMOTED_VALUES tag
  | .promotedRecord => c.children.isEmpty = false
  | .nullSkip => c.value = none
  | .plainColumn => True

/-- Rule `r` fires on a child: its guard holds and no higher-priority
guard does. -/
def firesAt (base : List String) (tag : String) (c : Node) (r : PRule) : Prop :=
  ruleGuard base tag c r ∧ ∀ r', ruleIdx r' < ruleIdx r → ¬ ruleGuard base tag c r'

/-- The rule `parseChild` dispatches a child to (the same `if` chain). -/
def parseChildRule (base : List String) (tag : String) (c : Node) : PRule :=
  if (LINK_ATTRIBUTES c.tag).isSome then .link
  else if c.tag ∈ base then .sibling
  else if c.tag ∈ PROMOTED_VALUES tag then .promotedValue
  else if c.children.isEmpty = false then .promotedRecord
  else if c.value = none then .nullSkip
  else .plainColumn

theorem ruleIdx_inj (r r' : PRule) (h : ruleIdx r = ruleIdx r') : r = r' := by
  cases r <;> cases r' <;> first | rfl | simp [ruleIdx] at h

theorem firesAt_parseChildRule (base : List String) (tag : String) (c : Node) :
    firesAt base tag c (parseChildRule base tag c) := by
  by_cases h1 : (LINK_ATTRIBUTES c.tag).isSome = true
  · have hr : parseChildRule base tag c = .link := by simp [parseChildRule, h1]
    rw [hr]
    refine ⟨h1, ?_⟩
    intro r' hr'
    cases r' <;> simp [ruleIdx] at hr'
  · by_cases h2 : c.tag ∈ base
    · have hr : parseChildRule base tag c = .sibling := by
        simp [parseChildRule, h1, h2]
      rw [hr]
      refine ⟨h2, ?_⟩
      intro r' hr'
      cases r' with
      | link => exact h1
      | _ => simp [ruleIdx] at hr'
    · by_cases h3 : c.tag ∈ PROMOTED_VALUES tag
      · have hr : parseChildRule base tag c = .promotedValue := by
          simp [parseChildRule, h1, h2, h3]
        rw [hr]
        refine ⟨h3, ?_⟩
        intro r' hr'
        cases r' with
        | link => exact h1
        | sibling => exact h2
        | _ => simp [ruleIdx] at hr'
      · by_cases h4 : c.children.isEmpty = false
        · have hr : parseChildRule base tag c = .promotedRecord := by
            simp [parseChildRule, h1, h2, h3, h4]
          rw [hr]
          refine ⟨h4, ?_⟩
          intro r' hr'
          cases r' with
          | link => exact h1
          | sibling => exact h2
          | promotedValue => exact h3
          | _ => simp [ruleIdx] at hr'
        · by_cases h5 : c.value = none
          · have hr : parseChildRule base tag c = .nullSkip := by
              simp [parseChildRule, h1, h2, h3, h4, h5]
            rw [hr]
            refine ⟨h5, ?_⟩
            intro r' hr'
            cases r' with
            | link => exact h1
            | sibling => exact h2
            | promotedValue => exact h3
            | promotedRecord => exact h4
            | _ => simp [ruleIdx] at hr'
          · have hr : parseChildRule base tag c = .plainColumn := by
              simp [parseChildRule, h1, h2, h3, h4, h5]
            rw [hr]
            refine ⟨trivial, ?_⟩
            intro r' hr'
            cases r' with
            | link => exact h1
            | sibling => exact h2
            | promotedValue => exact h3
            | promotedRecord => exact h4
            | nullSkip => exact h5
            | plainColumn => simp [ruleIdx] at hr'

theorem firesAt_unique (base : List String) (tag : String) (c : Node) (r r' : PRule)
    (h : firesAt base tag c r) (h' : firesAt base tag c r') : r = r' := by
  rcases Nat.lt_trichotomy (ruleIdx r) (ruleIdx r') with hlt | heq | hgt
  · exact absurd h.1 (h'.2 r hlt)
  · exact ruleIdx_inj r r' heq
  · exact absurd h'.1 (h.2 r' hgt)

/-! ## Observation helpers used by the claim statements -/

/-- The last row of a named table, `none` when the table is absent or
empty. -/
def lastRowOf (st : St) (n : String) : Option Row :=
  match aGet st.tables n with
  | some tb => tb.rows.getLast?
  | none => none

/-- The rows of a promoted-value table, `[]` when absent. -/
def pvRowsOf (st : St) (t : String) : List (String × Row) :=
  match aGet st.pvTables t with
  | some pv => pv.rows
  | none => []

/-- The id string stored for a promoted value, when present. -/
def pvIdOf (st : St) (t : String) (v : Option String) : Option String :=
  match aGet (pvRowsOf st t) (vKey v) with
  | some r =>
      match rowGet r "id" with
      | some (some s) => some s
      | _ => none
  | none => none

/-- The well-formedness invariant the run maintains for a promoted-value
table: row keys are distinct, and the stored ids are exactly the generated
ids of the insertion sequence `0, 1, …`. -/
def pvWF (st : St) (t : String) : Prop :=
  ((pvRowsOf st t).map (fun e => e.1)).Nodup ∧
    (pvRowsOf st t).map (fun e => rowGet e.2 "id") =
      (List.range (pvRowsOf st t).length).map
        (fun k => some (some (genId t k)))

instance (st : St) (t : String) : Decidable (pvWF st t) := by
  unfold pvWF
  infer_instance

/-! ## Lemmas on the registry operations -/

theorem ensureTable_pvTables (st : St) (n : String) (cols : List String) :
    (ensureTable st n cols).pvTables = st.pvTables := by
  unfold ensureTable
  split <;> rfl

theorem pushRow_pvTables (st : St) (n : String) (row : Row) :
    (pushRow st n row).pvTables = st.pvTables := rfl

theorem pushRows_pvTables (st : St) (n : String) (rs : List Row) :
    (pushRows st n rs).pvTables = st.pvTables := rfl

theorem addColumn_pvTables (st : St) (n c : String) :
    (addColumn st n c).pvTables = st.pvTables := rfl

theorem addJunctionRow_pvTables (st : St) (s : String) (sid : Option String)
    (t : String) (tid : Option String) :
    (addJunctionRow st s sid t tid).pvTables = st.pvTables := by
  unfold addJunctionRow
  rw [pushRow_pvTables, ensureTable_pvTables]

theorem aGet_ensureTable_self (st : St) (n : String) (cols : List String) :
    aGet (ensureTable st n cols).tables n =
      some (match aGet st.tables n with
            | some tb => tb
            | none => ⟨[], cols⟩) := by
  unfold ensureTable
  cases h : aGet st.tables n with
  | some tb => simp [h]
  | none => simp [h]

theorem aGet_ensureTable_ne (st : St) (n m : String) (cols : List String)
    (h : n ≠ m) : aGet (ensureTable st n cols).tables m = aGet st.tables m := by
  unfold ensureTable
  cases hn : aGet st.tables n with
  | some tb => rfl
  | none => simpa using aGet_aSet_ne st.tables n m _ h

theorem aGet_pushRow_self (st : St) (n : String) (row : Row) :
    aGet (pushRow st n row).tables n =
      (aGet st.tables n).map fun tb => { tb with rows := tb.rows ++ [row] } := by
  simpa [pushRow] using
    aGet_aModify_self st.tables n (fun tb => { tb with rows := tb.rows ++ [row] })

theorem aGet_pushRow_ne (st : St) (n m : String) (row : Row) (h : n ≠ m) :
    aGet (pushRow st n row).tables m = aGet st.tables m := by
  simpa [pushRow] using
    aGet_aModify_ne st.tables n m (fun tb => { tb with rows := tb.rows ++ [row] }) h

theorem aGet_pushRows_self (st : St) (n : String) (rs : List Row) :
    aGet (pushRows st n rs).tables n =
      (aGet st.tables n).map fun tb => { tb with rows := tb.rows ++ rs } := by
  simpa [pushRows] using
    aGet_aModify_self st.tables n (fun tb => { tb with rows := tb.rows ++ rs })

theorem aGet_pushRows_ne (st : St) (n m : String) (rs : List Row) (h : n ≠ m) :
    aGet (pushRows st n rs).tables m = aGet st.tables m := by
  simpa [pushRows] using
    aGet_aModify_ne st.tables n m (fun tb => { tb with rows := tb.rows ++ rs }) h

theorem aGet_addColumn_self (st : St) (n c : String) :
    aGet (addColumn st n c).tables n =
      (aGet st.tables n).map fun tb => { tb with columns := setAdd tb.columns c } := by
  simpa [addColumn] using
    aGet_aModify_self st.tables n (fun tb => { tb with columns := setAdd tb.columns c })

theorem aGet_addColumn_ne (st : St) (n m c : String) (h : n ≠ m) :
    aGet (addColumn st n c).tables m = aGet st.tables m := by
  simpa [addColumn] using
    aGet_aModify_ne st.tables n m (fun tb => { tb with columns := setAdd tb.columns c }) h

/-- What `addJunctionRow` leaves at the junction-table name. -/
theorem aGet_addJunctionRow_self (st : St) (s : String) (sid : Option String)
    (t : String) (tid : Option String) :
    aGet (addJunctionRow st s sid t tid).tables (s ++ "_" ++ t) =
      some ⟨(match aGet st.tables (s ++ "_" ++ t) with
             | some tb => tb.rows
             | none => []) ++ [aSet (aSet [] s sid) t tid],
            match aGet st.tables (s ++ "_" ++ t) with
            | some tb => tb.columns
            | none => setAdd (setAdd [] s) t⟩ := by
  unfold addJunctionRow
  rw [aGet_pushRow_self, aGet_ensureTable_self]
  cases h : aGet st.tables (s ++ "_" ++ t) <;> simp

theorem aGet_addJunctionRow_ne (st : St) (s : String) (sid : Option String)
    (t : String) (tid : Option String) (m : String) (h : s ++ "_" ++ t ≠ m) :
    aGet (addJunctionRow st s sid t tid).tables m = aGet st.tables m := by
  unfold addJunctionRow
  rw [aGet_pushRow_ne _ _ _ _ h, aGet_ensureTable_ne _ _ _ _ h]

/-- The last row of a junction table right after an emission. -/
theorem lastRowOf_addJunctionRow (st : St) (s : String) (sid : Option String)
    (t : String) (tid : Option String) :
    lastRowOf (addJunctionRow st s sid t tid) (s ++ "_" ++ t) =
      some (aSet (aSet [] s sid) t tid) := by
  unfold lastRowOf
  rw [aGet_addJunctionRow_self]
  simp

/-- The target-id cell of an emitted junction row, whether or not the two
table names coincide (when they do, the single key holds the target id). -/
theorem rowGet_junction_target (s : String) (sid : Option String) (t : String)
    (tid : Option String) :
    rowGet (aSet (aSet [] s sid) t tid) t = some tid := by
  by_cases h : s = t
  · subst h
    simp [rowGet]
  · unfold rowGet
    rw [aGet_aSet_self]

/-! ## C1: the rule chain is total, exhaustive and mutually exclusive -/

/-- C1.  For every child node (any tag, any optional pointer or value, any
children list) under any parent table and any top-level namespace, exactly
one of the six Promotion Engine rules fires — the guards, in the source's
priority order, are exhaustive and mutually exclusive — and the rule that
fires is the one `parseChild`'s `if` chain dispatches to.  No rule raises:
in the embedding `parseChild` is a total function on all such inputs. -/
theorem parseChild_rule_chain_exhaustive :
    ∀ (base : List String) (tag : String) (c : Node),
      (∃! r, firesAt base tag c r) ∧
        firesAt base tag c (parseChildRule base tag c) := by
  intro base tag c
  refine ⟨⟨parseChildRule base tag c, firesAt_parseChildRule base tag c, ?_⟩,
    firesAt_parseChildRule base tag c⟩
  intro r hr
  exact firesAt_unique base tag c r (parseChildRule base tag c) hr
    (firesAt_parseChildRule base tag c)

@[simp] theorem Node.tag_mk (t : String) (p v : Option String) (cs : List Node) :
    (Node.mk t p v cs).tag = t := rfl

@[simp] theorem Node.pointer_mk (t : String) (p v : Option String) (cs : List Node) :
    (Node.mk t p v cs).pointer = p := rfl

@[simp] theorem Node.value_mk (t : String) (p v : Option String) (cs : List Node) :
    (Node.mk t p v cs).value = v := rfl

@[simp] theorem Node.children_mk (t : String) (p v : Option String) (cs : List Node) :
    (Node.mk t p v cs).children = cs := rfl

/-- No promoted child tag is a link attribute: rules 1 and 3 never compete. -/
theorem promoted_not_link (tag x : String) (h : x ∈ PROMOTED_VALUES tag) :
    LINK_ATTRIBUTES x = none := by
  unfold PROMOTED_VALUES at h
  by_cases ht : tag = "INDI"
  · rw [if_pos ht] at h
    fin_cases h <;> rfl
  · rw [if_neg ht] at h
    cases h

/-- No promoted child tag is the literal column name `id`. -/
theorem promoted_ne_id (tag x : String) (h : x ∈ PROMOTED_VALUES tag) :
    x ≠ "id" := by
  unfold PROMOTED_VALUES at h
  by_cases ht : tag = "INDI"
  · rw [if_pos ht] at h
    fin_cases h <;> decide
  · rw [if_neg ht] at h
    cases h

/-! ## C6: junction-table naming and shape -/

/-- C6 (amended).  Every junction emission from source table `s` to target
table `t` with `s ≠ t` appends exactly one row to the table named exactly
`s ++ "_" ++ t` (source name first); the appended row maps column `s` to
the source id and column `t` to the target id; if the emission creates the
table, the table has exactly the two columns `s` and `t` (a pre-existing
table's column set is left unchanged); no other table is touched. -/
theorem addJunctionRow_shape (st : St) (s : String) (sid : Option String)
    (t : String) (tid : Option String) (h : s ≠ t) :
    ∃ tb, aGet (addJunctionRow st s sid t tid).tables (s ++ "_" ++ t) = some tb ∧
      tb.rows = (match aGet st.tables (s ++ "_" ++ t) with
                 | some old => old.rows
                 | none => []) ++ [[(s, sid), (t, tid)]] ∧
      tb.columns = (match aGet st.tables (s ++ "_" ++ t) with
                    | some old => old.columns
                    | none => [s, t]) ∧
      ∀ m, m ≠ s ++ "_" ++ t →
        aGet (addJunctionRow st s sid t tid).tables m = aGet st.tables m := by
  have hrow : aSet (aSet [] s sid) t tid = [(s, sid), (t, tid)] := by
    simp [h]
  have hcols : setAdd (setAdd [] s) t = [s, t] := by
    have hts : t ≠ s := fun e => h e.symm
    simp [setAdd, hts]
  refine ⟨_, aGet_addJunctionRow_self st s sid t tid, ?_, ?_, ?_⟩
  · rw [hrow]
  · rw [hcols]
  · intro m hm
    exact aGet_addJunctionRow_ne st s sid t tid m (fun he => hm he.symm)

/-- C6 counterexample.  When the source and target table names coincide
(`"A"` to `"A"`, reachable through the sibling-table rule on a child whose
tag equals its parent's), the junction table `A_A` is created with a single
column and its row records only the target id, not the claimed two-column
(source id, target id) pair. -/
theorem addJunctionRow_selfpair_counterexample :
    aGet (addJunctionRow ⟨[], []⟩ "A" (some "@s@") "A" (some "@t@")).tables "A_A" =
      some ⟨[[("A", some "@t@")]], ["A"]⟩ ∧
    (aGet (addJunctionRow ⟨[], []⟩ "A" (some "@s@") "A" (some "@t@")).tables
        "A_A").map (fun tb => tb.columns.length) = some 1 := by
  constructor <;> decide

/-! ## C7: sibling-table precedence over promoted-value -/

/-- C7.  A child whose tag is both a top-level table name and configured
for value promotion under the current table is handled by the sibling-table
rule: `parseChild` emits exactly the junction row with the child's raw
value as target id, and the promoted-value tables are untouched (no
promoted-value row is created). -/
theorem parseChild_sibling_precedence (cfg : Config) (base : List String)
    (st : St) (tag : String) (pointer : Option String) (record : Row) (c : Node)
    (hb : c.tag ∈ base) (hp : c.tag ∈ PROMOTED_VALUES tag) :
    parseChild cfg base st tag pointer record c =
      (addJunctionRow st tag pointer c.tag c.value, record) ∧
    (parseChild cfg base st tag pointer record c).1.pvTables = st.pvTables := by
  have hl : LINK_ATTRIBUTES c.tag = none := promoted_not_link tag c.tag hp
  obtain ⟨ctag, cptr, cval, cch⟩ := c
  simp only [Node.tag_mk] at hl hb
  have heq : parseChild cfg base st tag pointer record (Node.mk ctag cptr cval cch) =
      (addJunctionRow st tag pointer ctag cval, record) := by
    simp [parseChild, hl, hb]
  refine ⟨by simpa using heq, ?_⟩
  rw [heq]
  exact addJunctionRow_pvTables st tag pointer ctag cval

/-! ## C3: promoted-value idempotence and id uniqueness -/

theorem pvTableFor_rows (st : St) (t : String) :
    (pvTableFor st t).rows = pvRowsOf st t := by
  unfold pvTableFor pvRowsOf
  cases aGet st.pvTables t <;> rfl

theorem pvInserted_rows (st : St) (t : String) (v : Option String) :
    (pvInserted st t v).rows =
      match aGet (pvRowsOf st t) (vKey v) with
      | some _ => pvRowsOf st t
      | none => pvRowsOf st t ++
          [(vKey v, mkPVRow t (genId t (pvRowsOf st t).length) v)] := by
  simp only [pvInserted]
  rw [pvTableFor_rows]
  cases h : aGet (pvRowsOf st t) (vKey v) <;> simp [h, pvTableFor_rows]

theorem pvRowsOf_addPromotedValue (st : St) (s : String) (sid : Option String)
    (t : String) (v : Option String) :
    pvRowsOf (addPromotedValue st s sid t v) t = (pvInserted st t v).rows := by
  unfold addPromotedValue pvRowsOf
  rw [addJunctionRow_pvTables]
  simp

theorem lastRowOf_addPromotedValue (st : St) (s : String) (sid : Option String)
    (t : String) (v : Option String) :
    lastRowOf (addPromotedValue st s sid t v) (s ++ "_" ++ t) =
      some (aSet (aSet [] s sid) t (pvTargetId st t v)) := by
  unfold addPromotedValue
  exact lastRowOf_addJunctionRow _ s sid t (pvTargetId st t v)

theorem mkPVRow_id (t g : String) (v : Option String) (h : t ≠ "id") :
    rowGet (mkPVRow t g v) "id" = some (some g) := by
  unfold mkPVRow rowGet
  have h2 : "id" ≠ t := fun e => h e.symm
  simp [h2]

/-- C3.  Two promoted-value emissions into the same target table with the
identical raw value (as fired by the promoted-value rule, whose target tags
are the configured `PROMOTED_VALUES` set): afterwards the promoted-value
table holds exactly one row keyed by that value; both emitted junction rows
carry the same stored id as target; that id is of the form
`@gedcom-to-csv_generated_<Table><k>@` with `k` below the table's row
count, and equal to the row count at first insertion when the value was not
yet present; and — given the run invariant `pvWF` — the stored ids of the
table are pairwise distinct. -/
theorem addPromotedValue_idempotent (st : St) (t T S S' : String)
    (sid sid' v : Option String)
    (hT : T ∈ PROMOTED_VALUES t) (hwf : pvWF st T) :
    ((pvRowsOf (addPromotedValue (addPromotedValue st S sid T v) S' sid' T v) T).filter
        (fun e => e.1 = vKey v)).length = 1 ∧
    (∃ i, pvIdOf (addPromotedValue st S sid T v) T v = some i ∧
      pvIdOf (addPromotedValue (addPromotedValue st S sid T v) S' sid' T v) T v = some i ∧
      (∃ r1, lastRowOf (addPromotedValue st S sid T v) (S ++ "_" ++ T) = some r1 ∧
        rowGet r1 T = some (some i)) ∧
      (∃ r2, lastRowOf (addPromotedValue (addPromotedValue st S sid T v) S' sid' T v)
          (S' ++ "_" ++ T) = some r2 ∧ rowGet r2 T = some (some i)) ∧
      (∃ k, k < (pvRowsOf (addPromotedValue (addPromotedValue st S sid T v) S' sid' T v) T).length ∧
        i = genId T k) ∧
      (aGet (pvRowsOf st T) (vKey v) = none →
        i = genId T (pvRowsOf st T).length)) ∧
    ((pvRowsOf (addPromotedValue (addPromotedValue st S sid T v) S' sid' T v) T).map
        (fun e => rowGet e.2 "id")).Nodup := by
  have hid : T ≠ "id" := promoted_ne_id t T hT
  have hinj : Function.Injective fun k => some (some (genId T k)) := by
    intro a b hab
    simp only [Option.some.injEq] at hab
    exact genId_inj T a b hab
  cases hv : aGet (pvRowsOf st T) (vKey v) with
  | some r0 =>
      -- the value is already present: nothing is inserted, twice over
      have hrows1 : pvRowsOf (addPromotedValue st S sid T v) T = pvRowsOf st T := by
        rw [pvRowsOf_addPromotedValue, pvInserted_rows, hv]
      have hrows2 : pvRowsOf (addPromotedValue (addPromotedValue st S sid T v) S' sid' T v) T =
          pvRowsOf st T := by
        rw [pvRowsOf_addPromotedValue, pvInserted_rows, hrows1, hv]
      -- the stored id of r0, read off the invariant
      have hmem : (vKey v, r0) ∈ pvRowsOf st T := aGet_mem _ _ _ hv
      have hidmem : rowGet r0 "id" ∈
          (pvRowsOf st T).map (fun e => rowGet e.2 "id") :=
        List.mem_map_of_mem (fun e => rowGet e.2 "id") hmem
      rw [hwf.2] at hidmem
      obtain ⟨k, hk, hkid⟩ := List.mem_map.mp hidmem
      have hkn : k < (pvRowsOf st T).length := List.mem_range.mp hk
      have hr0id : rowGet r0 "id" = some (some (genId T k)) := hkid.symm
      have htid : pvTargetId st T v = some (genId T k) := by
        unfold pvTargetId
        rw [pvInserted_rows, hv, hv]
        simp [hr0id]
      have htid1 : pvTargetId (addPromotedValue st S sid T v) T v = some (genId T k) := by
        unfold pvTargetId
        rw [pvInserted_rows, hrows1, hv, hv]
        simp [hr0id]
      have hpvid : pvIdOf (addPromotedValue st S sid T v) T v = some (genId T k) := by
        unfold pvIdOf
        rw [hrows1, hv]
        simp [hr0id]
      have hpvid2 : pvIdOf (addPromotedValue (addPromotedValue st S sid T v) S' sid' T v) T v =
          some (genId T k) := by
        unfold pvIdOf
        rw [hrows2, hv]
        simp [hr0id]
      refine ⟨?_, ⟨genId T k, hpvid, hpvid2, ?_, ?_, ?_, ?_⟩, ?_⟩
      · rw [hrows2]
        exact length_filter_key_of_nodup _ _ _ hwf.1 hv
      · refine ⟨_, lastRowOf_addPromotedValue st S sid T v, ?_⟩
        rw [htid]
        exact rowGet_junction_target S sid T (some (genId T k))
      · refine ⟨_, lastRowOf_addPromotedValue (addPromotedValue st S sid T v) S' sid' T v, ?_⟩
        rw [htid1]
        exact rowGet_junction_target S' sid' T (some (genId T k))
      · exact ⟨k, by rw [hrows2]; exact hkn, rfl⟩
      · intro hnone
        simp [hv] at hnone
      · rw [hrows2, hwf.2]
        exact (List.nodup_range _).map hinj
  | none =>
      -- first insertion happens in the first call
      have hnew : pvRowsOf (addPromotedValue st S sid T v) T =
          pvRowsOf st T ++
            [(vKey v, mkPVRow T (genId T (pvRowsOf st T).length) v)] := by
        rw [pvRowsOf_addPromotedValue, pvInserted_rows, hv]
      have hget1 : aGet (pvRowsOf (addPromotedValue st S sid T v) T) (vKey v) =
          some (mkPVRow T (genId T (pvRowsOf st T).length) v) := by
        rw [hnew, aGet_append_of_none _ _ _ hv]
        simp
      have hrows2 : pvRowsOf (addPromotedValue (addPromotedValue st S sid T v) S' sid' T v) T =
          pvRowsOf (addPromotedValue st S sid T v) T := by
        rw [pvRowsOf_addPromotedValue, pvInserted_rows, hget1]
      have hrid : rowGet (mkPVRow T (genId T (pvRowsOf st T).length) v) "id" =
          some (some (genId T (pvRowsOf st T).length)) :=
        mkPVRow_id T _ v hid
      have htid : pvTargetId st T v = some (genId T (pvRowsOf st T).length) := by
        unfold pvTargetId
        rw [pvInserted_rows, hv]
        rw [show aGet (pvRowsOf st T ++
              [(vKey v, mkPVRow T (genId T (pvRowsOf st T).length) v)]) (vKey v) =
            some (mkPVRow T (genId T (pvRowsOf st T).length) v) by
          rw [aGet_append_of_none _ _ _ hv]; simp]
        simp [hrid]
      have htid1 : pvTargetId (addPromotedValue st S sid T v) T v =
          some (genId T (pvRowsOf st T).length) := by
        unfold pvTargetId
        rw [pvInserted_rows, hget1, hget1]
        simp [hrid]
      have hpvid : pvIdOf (addPromotedValue st S sid T v) T v =
          some (genId T (pvRowsOf st T).length) := by
        unfold pvIdOf
        rw [hget1]
        simp [hrid]
      have hpvid2 : pvIdOf (addPromotedValue (addPromotedValue st S sid T v) S' sid' T v) T v =
          some (genId T (pvRowsOf st T).length) := by
        unfold pvIdOf
        rw [hrows2, hget1]
        simp [hrid]
      refine ⟨?_, ⟨genId T (pvRowsOf st T).length, hpvid, hpvid2, ?_, ?_, ?_, ?_⟩, ?_⟩
      · rw [hrows2, hnew, List.filter_append, filter_key_nil _ _ hv]
        simp
      · refine ⟨_, lastRowOf_addPromotedValue st S sid T v, ?_⟩
        rw [htid]
        exact rowGet_junction_target S sid T _
      · refine ⟨_, lastRowOf_addPromotedValue (addPromotedValue st S sid T v) S' sid' T v, ?_⟩
        rw [htid1]
        exact rowGet_junction_target S' sid' T _
      · refine ⟨(pvRowsOf st T).length, ?_, rfl⟩
        rw [hrows2, hnew]
        simp
      · intro _
        rfl
      · rw [hrows2, hnew, List.map_append, hwf.2]
        have : ([(vKey v, mkPVRow T (genId T (pvRowsOf st T).length) v)].map
            (fun e => rowGet e.2 "id")) =
            [some (some (genId T (pvRowsOf st T).length))] := by
          simp [hrid]
        rw [this]
        rw [show (List.range (pvRowsOf st T).length).map
              (fun k => some (some (genId T k))) ++
              [some (some (genId T (pvRowsOf st T).length))] =
            (List.range (pvRowsOf st T).length ++ [(pvRowsOf st T).length]).map
              (fun k => some (some (genId T k))) by simp]
        rw [← List.range_succ]
        exact (List.nodup_range _).map hinj

/-! ## C4: column-collision determinism -/

theorem formatValue_nonDate (d : Option (List String)) (tag : String)
    (v : Option String) (h : tag ≠ "DATE") : formatValue d tag v = some v := by
  unfold formatValue
  rw [if_neg h]

theorem parentsRows_non_fam (record : Row) (tag : String) (children : List Node)
    (h : tag ≠ "FAM") : parentsRows record tag children = [] := by
  unfold parentsRows
  rw [if_neg h]

theorem pushRows_nil (st : St) (n : String) : pushRows st n [] = st := by
  unfold pushRows
  rw [aModify_congr_id st.tables n _ (fun a => by simp)]

theorem aGet_runPlugins (cfg : Config) (st : St) (record : Row) (node : Node)
    (n : String) (h : n ≠ "PARENTS" ∨ node.tag ≠ "FAM") :
    aGet (runPlugins cfg st record node).tables n = aGet st.tables n := by
  unfold runPlugins
  split
  · rcases h with h | h
    · exact aGet_pushRows_ne st "PARENTS" n _ (fun e => h e.symm)
    · rw [parentsRows_non_fam _ _ _ h, pushRows_nil]
  · rfl

/-- Transfer of "the last character is not a digit" from one evaluated
witness character to every character the `getLast?` equation produces. -/
theorem last_not_digit (s : String) (c0 : Char) (h : s.data.getLast? = some c0)
    (hc : ¬(48 ≤ c0.toNat ∧ c0.toNat ≤ 57)) :
    ∀ ch, s.data.getLast? = some ch → ¬(48 ≤ ch.toNat ∧ ch.toNat ≤ 57) := by
  intro ch hch
  rw [h] at hch
  cases hch
  exact hc

theorem parseChild_plain (cfg : Config) (base : List String) (st : St)
    (tag : String) (ptr : Option String) (record : Row) (ctag w : String)
    (hl : LINK_ATTRIBUTES ctag = none) (hb : ctag ∉ base)
    (hp : ctag ∉ PROMOTED_VALUES tag) (hd : ctag ≠ "DATE") :
    parseChild cfg base st tag ptr record (Node.mk ctag none (some w) []) =
      (addColumn st tag (freshColumn record ctag),
       rowSet record (freshColumn record ctag) (some w)) := by
  simp [parseChild, hl, hb, hp, formatValue_nonDate _ _ _ hd, rowAssign, rowSet]

/-- C4 counterexample.  For `X = "id"` the first column is pre-occupied by
the row identity, so the three children land in `id2`, `id3`, `id4`: the
claimed assignment `X=a` fails (`id` holds the pointer `@P@`, not `"a"`),
and `X2=b` fails likewise (`id2` holds `"a"`). -/
theorem plain_column_id_counterexample :
    aGet (convertTables cfg0 rsC4).tables "FOO" =
      some ⟨[[("id", some "@P@"), ("id2", some "a"), ("id3", some "b"),
              ("id4", some "c")]],
            ["id", "id2", "id3", "id4"]⟩ ∧
    ((aGet (convertTables cfg0 rsC4).tables "FOO").bind
        (fun tb => tb.rows.getLast?)).bind (fun r => rowGet r "id") ≠
      some (some "a") := by
  constructor <;> decide

theorem natToString_two : natToString 2 = "2" := by decide

theorem natToString_three : natToString 3 = "3" := by decide

theorem processTopChildren_nil (cfg : Config) (base : List String) (st : St)
    (t : String) (p : Option String) (r : Row) :
    processTopChildren cfg base st t p r [] = (st, r) := rfl

/-- C4 (amended).  A top-level node with three children all tagged `X`
carrying values `a`, `b`, `c` in that order — where `X` matches none of the
earlier rules, `X ≠ "id"` (the id column is pre-occupied by the row
identity), `X ≠ "DATE"` (date values are reformatted), and the
copy-individual-names interaction is excluded — yields a row with `X=a`,
`X2=b`, `X3=c`, and all three column names are added to the table's column
set. -/
theorem plain_column_collision (cfg : Config) (base : List String) (st : St)
    (t : String) (p : Option String) (X a b c : String)
    (hl : LINK_ATTRIBUTES X = none) (hb : X ∉ base)
    (hp : X ∉ PROMOTED_VALUES t) (hid : X ≠ "id") (hd : X ≠ "DATE")
    (hcopy : ¬(cfg.copyIndividualNames ∧ t = "INDI" ∧ X = "NAME")) :
    ∃ tb r,
      aGet (parseRecord cfg base st
          (Node.mk t p none
            [Node.mk X none (some a) [], Node.mk X none (some b) [],
             Node.mk X none (some c) []])).tables t = some tb ∧
      tb.rows.getLast? = some r ∧
      rowGet r X = some (some a) ∧
      rowGet r (X ++ "2") = some (some b) ∧
      rowGet r (X ++ "3") = some (some c) ∧
      X ∈ tb.columns ∧ (X ++ "2") ∈ tb.columns ∧ (X ++ "3") ∈ tb.columns := by
  have hid' : "id" ≠ X := fun e => hid e.symm
  have hdig_id : ∀ ch, ("id" : String).data.getLast? = some ch →
      ¬(48 ≤ ch.toNat ∧ ch.toNat ≤ 57) :=
    last_not_digit "id" 'd' rfl (by decide)
  have h2id : X ++ natToString 2 ≠ "id" := append_natToString_ne X "id" 2 hdig_id
  have h3id : X ++ natToString 3 ≠ "id" := append_natToString_ne X "id" 3 hdig_id
  have h2id' : "id" ≠ X ++ natToString 2 := fun e => h2id e.symm
  have h3id' : "id" ≠ X ++ natToString 3 := fun e => h3id e.symm
  have h2X : X ≠ X ++ natToString 2 := fun e => append_natToString_ne_self X 2 e.symm
  have h3X : X ≠ X ++ natToString 3 := fun e => append_natToString_ne_self X 3 e.symm
  have h23 : X ++ natToString 2 ≠ X ++ natToString 3 := fun e => by
    have := append_natToString_inj X 2 3 e
    omega
  have h32 : X ++ natToString 3 ≠ X ++ natToString 2 := fun e => h23 e.symm
  have hfc1 : freshColumn [("id", p)] X = X := by
    simp [freshColumn, rowGet, hid']
  have hrow1 : rowSet [("id", p)] X (some a) = [("id", p), (X, some a)] := by
    simp [rowSet, hid']
  have hfc2 : freshColumn [("id", p), (X, some a)] X = X ++ natToString 2 := by
    simp [freshColumn, rowGet, hid', freshFromAux, h2id', h2X]
  have hrow2 : rowSet [("id", p), (X, some a)] (X ++ natToString 2) (some b) =
      [("id", p), (X, some a), (X ++ natToString 2, some b)] := by
    simp [rowSet, h2id', h2X]
  have hfc3 : freshColumn [("id", p), (X, some a), (X ++ natToString 2, some b)] X =
      X ++ natToString 3 := by
    simp [freshColumn, rowGet, hid', freshFromAux, h2id', h2X, h23, h3id', h3X]
  have hrow3 : rowSet [("id", p), (X, some a), (X ++ natToString 2, some b)]
      (X ++ natToString 3) (some c) =
      [("id", p), (X, some a), (X ++ natToString 2, some b),
       (X ++ natToString 3, some c)] := by
    simp [rowSet, h3id', h3X, h32, h23]
  have s1 := parseChild_plain cfg base (ensureTable st t (setAdd [] "id")) t p
    [("id", p)] X a hl hb hp hd
  rw [hfc1, hrow1] at s1
  have s2 := parseChild_plain cfg base
    (addColumn (ensureTable st t (setAdd [] "id")) t X) t p
    [("id", p), (X, some a)] X b hl hb hp hd
  rw [hfc2, hrow2] at s2
  have s3 := parseChild_plain cfg base
    (addColumn (addColumn (ensureTable st t (setAdd [] "id")) t X) t
      (X ++ natToString 2)) t p
    [("id", p), (X, some a), (X ++ natToString 2, some b)] X c hl hb hp hd
  rw [hfc3, hrow3] at s3
  have hfold : processTopChildren cfg base (ensureTable st t (setAdd [] "id")) t p
      [("id", p)]
      [Node.mk X none (some a) [], Node.mk X none (some b) [],
       Node.mk X none (some c) []] =
      (addColumn (addColumn (addColumn (ensureTable st t (setAdd [] "id")) t X) t
          (X ++ natToString 2)) t (X ++ natToString 3),
       [("id", p), (X, some a), (X ++ natToString 2, some b),
        (X ++ natToString 3, some c)]) := by
    simp only [processTopChildren, List.foldl_cons, List.foldl_nil, Node.tag_mk,
      Node.value_mk, if_neg hcopy, s1, s2, s3]
  have hpr : parseRecord cfg base st
      (Node.mk t p none
        [Node.mk X none (some a) [], Node.mk X none (some b) [],
         Node.mk X none (some c) []]) =
      runPlugins cfg
        (pushRow (addColumn (addColumn (addColumn
            (ensureTable st t (setAdd [] "id")) t X) t
            (X ++ natToString 2)) t (X ++ natToString 3)) t
          [("id", p), (X, some a), (X ++ natToString 2, some b),
           (X ++ natToString 3, some c)])
        [("id", p), (X, some a), (X ++ natToString 2, some b),
         (X ++ natToString 3, some c)]
        (Node.mk t p none
          [Node.mk X none (some a) [], Node.mk X none (some b) [],
           Node.mk X none (some c) []]) := by
    unfold parseRecord
    simp only [Node.tag_mk, Node.pointer_mk, Node.children_mk, hfold]
  have hrp : t ≠ "PARENTS" ∨
      (Node.mk t p none
        [Node.mk X none (some a) [], Node.mk X none (some b) [],
         Node.mk X none (some c) []]).tag ≠ "FAM" := by
    by_cases hf : t = "FAM"
    · left
      rw [hf]
      decide
    · right
      simpa using hf
  rw [hpr, aGet_runPlugins _ _ _ _ _ hrp, aGet_pushRow_self,
    aGet_addColumn_self, aGet_addColumn_self, aGet_addColumn_self,
    aGet_ensureTable_self]
  simp only [Option.map_some']
  refine ⟨_, [("id", p), (X, some a), (X ++ natToString 2, some b),
    (X ++ natToString 3, some c)], rfl, ?_, ?_, ?_, ?_, ?_, ?_, ?_⟩
  · simp
  · simp [rowGet, hid', natToString_two, natToString_three]
  · have e2 : (X ++ "2") = X ++ natToString 2 := by rw [natToString_two]
    rw [e2]
    simp [rowGet, h2id', h2X]
  · have e3 : (X ++ "3") = X ++ natToString 3 := by rw [natToString_three]
    rw [e3]
    simp [rowGet, h3id', h3X, h32, h23]
  · simp
  · rw [show (X ++ "2") = X ++ natToString 2 by rw [natToString_two]]
    simp
  · rw [show (X ++ "3") = X ++ natToString 3 by rw [natToString_three]]
    simp

/-! ## C2: the Integration Pass drops the promoted table's value column -/

/-- C2 bug witness.  On the run `rsC2` the promoted-value table `_EMPLOY`
carries columns `{id, _EMPLOY}`, and a junction table of the same name
already exists; the integration loop executes
`tables[table].columns.add(...columns)`, but `Set.prototype.add` takes a
single argument, so only `'id'` is added: the merged table's column set is
`{"", EMPLOY, id}` — the promoted value column `_EMPLOY` is missing even
though the appended deduplicated row carries it. -/
theorem integration_add_single_argument_bug :
    (aGet (flattenAll cfg0 rsC2).pvTables "_EMPLOY").map PVTable.columns =
      some ["id", "_EMPLOY"] ∧
    (aGet (convertTables cfg0 rsC2).tables "_EMPLOY").map Table.columns =
      some ["", "EMPLOY", "id"] ∧
    (aGet (convertTables cfg0 rsC2).tables "_EMPLOY").map Table.rows =
      some [[("", some "@A@"), ("EMPLOY", some "@E@")],
            [("id", some "@gedcom-to-csv_generated__EMPLOY0@"),
             ("_EMPLOY", some "clerk")]] := by
  refine ⟨by decide, by decide, by decide⟩

/-! ## C10: promoted-record id synthesis and its duplication -/

/-- C10.  The id of a promoted sub-record is its own pointer when truthy,
otherwise `@<tag><n>@` with `n` the tag's table row count sampled before
the record's children are flattened and before its own row is appended;
consequently, on `rs10` — a pointer-less promoted `T` record nesting
another pointer-less `T` record — both resulting rows of table `T` receive
the identical synthesized id `@T0@`. -/
theorem promoted_record_id_duplication :
    aGet (convertTables cfg0 rs10).tables "T" =
      some ⟨[[("id", some "@T0@"), ("T", none), ("Z", some "v")],
             [("id", some "@T0@"), ("T", none)]],
            ["id", "T", "Z"]⟩ ∧
    "@T0@" = "@" ++ "T" ++ natToString 0 ++ "@" ∧
    (∀ (st : St) (tag p : String), p ≠ "" →
      promotedRecordId st tag (some p) = p) ∧
    (∀ (st : St) (tag : String), promotedRecordId st tag none =
      "@" ++ tag ++
        natToString (match aGet st.tables tag with
          | some tb => tb.rows.length
          | none => 0) ++ "@") := by
  refine ⟨by decide, by decide, ?_, ?_⟩
  · intro st tag p hp
    unfold promotedRecordId
    simp only [if_neg hp]
  · intro st tag
    rfl

/-- C10 witness: the pointer branch of the id rule at a concrete input. -/
theorem promoted_record_id_duplication_witness :
    ("@X1@" : String) ≠ "" ∧
    promotedRecordId ⟨[], []⟩ "RESI" (some "@X1@") = "@X1@" :=
  ⟨by decide,
   promoted_record_id_duplication.2.2.1 ⟨[], []⟩ "RESI" "@X1@" (by decide)⟩

/-! ## C8 counterexample: the copy is the last NAME child, not the first -/

/-- C8 counterexample.  With the copy-individual-names option on and an
`INDI` record carrying two NAME children `"A"` then `"B"`, the finished
row's NAME column holds `"B"` — the value of the last NAME child (each
NAME child overwrites the copy) — not the claimed first child's `"A"`. -/
theorem copy_individual_name_first_counterexample :
    aGet (convertTables cfgN rsC8).tables "INDI" =
      some ⟨[[("id", some "@I1@"), ("NAME", some "B"), ("NAME2", some "B")]],
            ["id", "NAME", "NAME2"]⟩ ∧
    ((aGet (convertTables cfgN rsC8).tables "INDI").bind
        (fun tb => tb.rows.getLast?)).bind (fun r => rowGet r "NAME") ≠
      some (some "A") := by
  constructor <;> decide

/-! ## C5: date formatting -/

/-- C5 counterexample.  Splitting `"Abt. 1780 - 1790"` with the configured
delimiters `["abt.", "-"]` leaves the surviving parseable fragments as
`" 1780 "` and `" 1790"` — surrounding whitespace is not consumed, because
the `\s` written in the source's template literal denotes a plain letter
`s` — contradicting the claim that the fragments are `"1780"` and
`"1790"`. -/
theorem date_fallback_fragments_counterexample :
    (jsSplitDelims ["abt.", "-"] "Abt. 1780 - 1790").filter
        (fun f => (jsDateParse f).isSome) = [" 1780 ", " 1790"] ∧
    (jsSplitDelims ["abt.", "-"] "Abt. 1780 - 1790").filter
        (fun f => (jsDateParse f).isSome) ≠ ["1780", "1790"] := by
  constructor <;> decide

/-- C5 (amended).  Formatting `"4 JUL 1776"` yields `"1776-07-04"`;
formatting `"Abt. 1780 - 1790"` with fallback delimiters `["abt.", "-"]`
splits the value so that the surviving parseable fragments are `" 1780 "`
and `" 1790"` (each delimiter's wrapper consumes runs of the letter `s`,
not whitespace; the date parser itself ignores the surrounding whitespace)
and returns the mean of their time values rendered as `"1784-12-31"`; an
unparseable date with no fallback configured is returned unchanged; with a
fallback configured and no fragment parsing, the result is the `undefined`
"no value" (outer `none`), whose assignment leaves the row without the
column. -/
theorem formatValue_date_behaviour :
    formatValue none "DATE" (some "4 JUL 1776") = some (some "1776-07-04") ∧
    formatValue (some ["abt.", "-"]) "DATE" (some "Abt. 1780 - 1790") =
      some (some "1784-12-31") ∧
    (jsSplitDelims ["abt.", "-"] "Abt. 1780 - 1790").filter
        (fun f => (jsDateParse f).isSome) = [" 1780 ", " 1790"] ∧
    (∀ s, jsDateParse s = none →
      formatValue none "DATE" (some s) = some (some s)) ∧
    (∀ ds s, jsDateParse s = none →
      (jsSplitDelims ds s).filterMap jsDateParse = [] →
      formatValue (some ds) "DATE" (some s) = none) ∧
    (∀ (r : Row) (col : String), rowAssign r col none = r) := by
  refine ⟨by decide, by decide, by decide, ?_, ?_, ?_⟩
  · intro s hs
    unfold formatValue
    simp [hs]
  · intro ds s hs hf
    unfold formatValue
    simp [hs, hf]
  · intro r col
    rfl

/-! ## Table-presence and column monotonicity through the engine -/

/-- The table `n` exists and its column set contains `cols`.  All engine
operations preserve this (tables are never removed, columns never reset). -/
def tableHas (st : St) (n : String) (cols : List String) : Prop :=
  ∃ tb, aGet st.tables n = some tb ∧ ∀ c ∈ cols, c ∈ tb.columns

theorem tableHas_ensureTable (st : St) (m : String) (ics : List String)
    (n : String) (S : List String) (h : tableHas st n S) :
    tableHas (ensureTable st m ics) n S := by
  obtain ⟨tb, htb, hc⟩ := h
  unfold tableHas
  by_cases hm : m = n
  · subst hm
    rw [aGet_ensureTable_self, htb]
    exact ⟨tb, rfl, hc⟩
  · rw [aGet_ensureTable_ne st m n ics hm]
    exact ⟨tb, htb, hc⟩

theorem tableHas_pushRow (st : St) (m : String) (row : Row)
    (n : String) (S : List String) (h : tableHas st n S) :
    tableHas (pushRow st m row) n S := by
  obtain ⟨tb, htb, hc⟩ := h
  unfold tableHas
  by_cases hm : m = n
  · subst hm
    rw [aGet_pushRow_self, htb]
    exact ⟨_, rfl, hc⟩
  · rw [aGet_pushRow_ne st m n row hm]
    exact ⟨tb, htb, hc⟩

theorem tableHas_pushRows (st : St) (m : String) (rs : List Row)
    (n : String) (S : List String) (h : tableHas st n S) :
    tableHas (pushRows st m rs) n S := by
  obtain ⟨tb, htb, hc⟩ := h
  unfold tableHas
  by_cases hm : m = n
  · subst hm
    rw [aGet_pushRows_self, htb]
    exact ⟨_, rfl, hc⟩
  · rw [aGet_pushRows_ne st m n rs hm]
    exact ⟨tb, htb, hc⟩

theorem tableHas_addColumn (st : St) (m col : String)
    (n : String) (S : List String) (h : tableHas st n S) :
    tableHas (addColumn st m col) n S := by
  obtain ⟨tb, htb, hc⟩ := h
  unfold tableHas
  by_cases hm : m = n
  · subst hm
    rw [aGet_addColumn_self, htb]
    exact ⟨_, rfl, fun c hcS => mem_setAdd_of_mem _ _ _ (hc c hcS)⟩
  · rw [aGet_addColumn_ne st m n col hm]
    exact ⟨tb, htb, hc⟩

/-- `addColumn` on a present table makes the column a member. -/
theorem tableHas_addColumn_self (st : St) (n col : String) (S : List String)
    (h : tableHas st n S) : tableHas (addColumn st n col) n (col :: S) := by
  obtain ⟨tb, htb, hc⟩ := h
  unfold tableHas
  rw [aGet_addColumn_self, htb]
  refine ⟨_, rfl, ?_⟩
  intro c hcS
  rcases List.mem_cons.mp hcS with rfl | hm
  · exact self_mem_setAdd _ _
  · exact mem_setAdd_of_mem _ _ _ (hc c hm)

theorem tableHas_addJunctionRow (st : St) (s : String) (sid : Option String)
    (t : String) (tid : Option String) (n : String) (S : List String)
    (h : tableHas st n S) : tableHas (addJunctionRow st s sid t tid) n S := by
  unfold addJunctionRow
  exact tableHas_pushRow _ _ _ _ _ (tableHas_ensureTable _ _ _ _ _ h)

theorem tableHas_addPromotedValue (st : St) (s : String) (sid : Option String)
    (t : String) (v : Option String) (n : String) (S : List String)
    (h : tableHas st n S) : tableHas (addPromotedValue st s sid t v) n S := by
  unfold addPromotedValue
  apply tableHas_addJunctionRow
  exact h

mutual

theorem parseChild_tableHas (cfg : Config) (base : List String) (st : St)
    (tag : String) (ptr : Option String) (record : Row) (c : Node)
    (n : String) (S : List String) (h : tableHas st n S) :
    tableHas (parseChild cfg base st tag ptr record c).1 n S := by
  obtain ⟨ctag, cptr, cval, cch⟩ := c
  unfold parseChild
  by_cases h1 : (LINK_ATTRIBUTES ctag).isSome
  · simpa [h1] using tableHas_addJunctionRow st tag ptr _ cval n S h
  · by_cases h2 : ctag ∈ base
    · simpa [h1, h2] using tableHas_addJunctionRow st tag ptr ctag cval n S h
    · by_cases h3 : ctag ∈ PROMOTED_VALUES tag
      · simpa [h1, h2, h3] using
          tableHas_addPromotedValue st tag ptr ctag cval n S h
      · by_cases h4 : cch.isEmpty
        · by_cases h5 : cval = none
          · simpa [h1, h2, h3, h4, h5] using h
          · simpa [h1, h2, h3, h4, h5] using
              tableHas_addColumn st tag (freshColumn record ctag) n S h
        · cases hb : cch.isEmpty with
          | true => exact absurd hb h4
          | false =>
              rw [if_neg h1, if_neg h2, if_neg h3,
                if_pos (show (!false) = true from rfl)]
              exact tableHas_pushRow _ _ _ _ _
                (parseChildren_tableHas cfg base _ ctag _ _ cch n S
                  (tableHas_addJunctionRow _ _ _ _ _ _ _
                    (tableHas_ensureTable _ _ _ _ _ h)))

theorem parseChildren_tableHas (cfg : Config) (base : List String) (st : St)
    (tag : String) (ptr : Option String) (record : Row) (cs : List Node)
    (n : String) (S : List String) (h : tableHas st n S) :
    tableHas (parseChildren cfg base st tag ptr record cs).1 n S := by
  match cs with
  | [] => exact h
  | c :: cs =>
      unfold parseChildren
      exact parseChildren_tableHas cfg base _ tag ptr _ cs n S
        (parseChild_tableHas cfg base st tag ptr record c n S h)

end

theorem processTopChildren_cons (cfg : Config) (base : List String) (st : St)
    (t : String) (p : Option String) (r : Row) (c : Node) (cs : List Node) :
    processTopChildren cfg base st t p r (c :: cs) =
      (if cfg.copyIndividualNames ∧ t = "INDI" ∧ c.tag = "NAME" then
        processTopChildren cfg base
          (addColumn (parseChild cfg base st t p r c).1 "INDI" "NAME") t p
          (rowSet (parseChild cfg base st t p r c).2 "NAME" c.value) cs
      else
        processTopChildren cfg base (parseChild cfg base st t p r c).1 t p
          (parseChild cfg base st t p r c).2 cs) := by
  by_cases h : cfg.copyIndividualNames ∧ t = "INDI" ∧ c.tag = "NAME" <;>
    simp [processTopChildren, h]

theorem processTopChildren_tableHas (cfg : Config) (base : List String)
    (st : St) (t : String) (p : Option String) (r : Row) (cs : List Node)
    (n : String) (S : List String) (h : tableHas st n S) :
    tableHas (processTopChildren cfg base st t p r cs).1 n S := by
  induction cs generalizing st r with
  | nil => exact h
  | cons c cs ih =>
      rw [processTopChildren_cons]
      by_cases hg : cfg.copyIndividualNames ∧ t = "INDI" ∧ c.tag = "NAME"
      · rw [if_pos hg]
        exact ih _ _ (tableHas_addColumn _ _ _ _ _
          (parseChild_tableHas cfg base st t p r c n S h))
      · rw [if_neg hg]
        exact ih _ _ (parseChild_tableHas cfg base st t p r c n S h)

/-! ## The row component of child processing is a pure function -/

/-- The effect of one `parseChild` call on the parent row: rules 1–5 leave
it unchanged (the promoted-record recursion mutates the sub-record's own
row, never the parent's); only the plain-column rule assigns. -/
def rowStep (cfg : Config) (base : List String) (tag : String) (record : Row)
    (c : Node) : Row :=
  if (LINK_ATTRIBUTES c.tag).isSome then record
  else if c.tag ∈ base then record
  else if c.tag ∈ PROMOTED_VALUES tag then record
  else if !c.children.isEmpty then record
  else if c.value = none then record
  else
    rowAssign record (freshColumn record c.tag)
      (formatValue cfg.forceDateDelims c.tag c.value)

theorem parseChild_row (cfg : Config) (base : List String) (st : St)
    (tag : String) (ptr : Option String) (record : Row) (c : Node) :
    (parseChild cfg base st tag ptr record c).2 = rowStep cfg base tag record c := by
  obtain ⟨ctag, cptr, cval, cch⟩ := c
  unfold parseChild rowStep
  simp only [Node.tag_mk, Node.value_mk, Node.children_mk]
  split_ifs <;> rfl

/-- One step of the top-level children loop, on the row alone. -/
def topRowStep (cfg : Config) (base : List String) (tag : String)
    (record : Row) (c : Node) : Row :=
  if cfg.copyIndividualNames ∧ tag = "INDI" ∧ c.tag = "NAME" then
    rowSet (rowStep cfg base tag record c) "NAME" c.value
  else rowStep cfg base tag record c

theorem processTopChildren_row (cfg : Config) (base : List String) (st : St)
    (tag : String) (p : Option String) (record : Row) (cs : List Node) :
    (processTopChildren cfg base st tag p record cs).2 =
      cs.foldl (topRowStep cfg base tag) record := by
  induction cs generalizing st record with
  | nil => rfl
  | cons c cs ih =>
      rw [processTopChildren_cons, List.foldl_cons]
      by_cases h : cfg.copyIndividualNames ∧ tag = "INDI" ∧ c.tag = "NAME"
      · rw [if_pos h, ih]
        unfold topRowStep
        rw [if_pos h, parseChild_row]
      · rw [if_neg h, ih]
        unfold topRowStep
        rw [if_neg h, parseChild_row]

theorem freshColumn_ne_NAME (record : Row) (t : String) (h : t ≠ "NAME") :
    freshColumn record t ≠ "NAME" :=
  freshColumn_ne record t "NAME" h (last_not_digit "NAME" 'E' rfl (by decide))

theorem rowStep_NAME (cfg : Config) (base : List String) (tag : String)
    (record : Row) (c : Node) (h : c.tag ≠ "NAME") :
    rowGet (rowStep cfg base tag record c) "NAME" = rowGet record "NAME" := by
  unfold rowStep
  split_ifs <;>
    first
      | rfl
      | exact rowGet_rowAssign_ne record (freshColumn record c.tag) "NAME" _
          (freshColumn_ne_NAME record c.tag h)

theorem getLast?_cons_of_some {α : Type} (a : α) (l : List α) (x : α)
    (h : l.getLast? = some x) : (a :: l).getLast? = some x := by
  cases l with
  | nil => simp at h
  | cons b l' => rw [List.getLast?_cons_cons]; exact h

/-- NAME tracking through the top-level children loop: the finished row's
NAME cell is the value of the last NAME-tagged child (the copy branch
overwrites it for every NAME child, and no other child can write the NAME
column — suffixed fresh columns end in digits). -/
theorem foldl_topRowStep_NAME (cfg : Config) (base : List String)
    (hc : cfg.copyIndividualNames = true) (cs : List Node) (record : Row) :
    rowGet (cs.foldl (topRowStep cfg base "INDI") record) "NAME" =
      (match (cs.filter (fun c => c.tag = "NAME")).getLast? with
       | some l => some l.value
       | none => rowGet record "NAME") := by
  induction cs generalizing record with
  | nil => rfl
  | cons c cs ih =>
      rw [List.foldl_cons, ih]
      by_cases hname : c.tag = "NAME"
      · have hcond : cfg.copyIndividualNames = true ∧ ("INDI" : String) = "INDI" ∧
            c.tag = "NAME" := ⟨hc, rfl, hname⟩
        have hstep : rowGet (topRowStep cfg base "INDI" record c) "NAME" =
            some c.value := by
          unfold topRowStep
          rw [if_pos hcond]
          exact rowGet_rowSet_self _ _ _
        rw [List.filter_cons_of_pos (by simpa using hname)]
        cases hl : (cs.filter (fun c => c.tag = "NAME")).getLast? with
        | some l => rw [getLast?_cons_of_some _ _ _ hl]
        | none =>
            have hnil : cs.filter (fun c => c.tag = "NAME") = [] := by
              cases hfe : cs.filter (fun c => c.tag = "NAME") with
              | nil => rfl
              | cons x xs =>
                  rw [hfe, List.getLast?_eq_getLast _ (by simp)] at hl
                  cases hl
            rw [hnil]
            simp [hstep]
      · have hcond : ¬(cfg.copyIndividualNames = true ∧ ("INDI" : String) = "INDI" ∧
            c.tag = "NAME") := fun hx => hname hx.2.2
        have hstep : rowGet (topRowStep cfg base "INDI" record c) "NAME" =
            rowGet record "NAME" := by
          unfold topRowStep
          rw [if_neg hcond]
          exact rowStep_NAME cfg base "INDI" record c hname
        rw [List.filter_cons_of_neg (by simpa using hname)]
        cases (cs.filter (fun c => c.tag = "NAME")).getLast? <;> simp [hstep]

/-! ## C8 (amended): the NAME copy holds the last NAME child -/

/-- Once a NAME child has been seen, the copy branch has added the NAME
column; the rest of the loop preserves it. -/
theorem processTopChildren_name_column (cfg : Config) (base : List String)
    (st : St) (p : Option String) (record : Row) (cs : List Node)
    (hc : cfg.copyIndividualNames = true)
    (hn : cs.filter (fun c => c.tag = "NAME") ≠ [])
    (hpres : tableHas st "INDI" []) :
    tableHas (processTopChildren cfg base st "INDI" p record cs).1 "INDI"
      ["NAME"] := by
  revert hn hpres
  induction cs generalizing st record with
  | nil =>
      intro hn _
      exact absurd rfl hn
  | cons c cs ih =>
      intro hn hpres
      rw [processTopChildren_cons]
      by_cases hname : c.tag = "NAME"
      · rw [if_pos ⟨hc, rfl, hname⟩]
        apply processTopChildren_tableHas
        exact tableHas_addColumn_self _ "INDI" "NAME" []
          (parseChild_tableHas cfg base st "INDI" p record c "INDI" [] hpres)
      · rw [if_neg (fun hx => hname hx.2.2)]
        apply ih
        · rwa [List.filter_cons_of_neg (by simpa using hname)] at hn
        · exact parseChild_tableHas cfg base st "INDI" p record c "INDI" [] hpres

/-- C8 (amended).  With the copy-individual-names option on, for every
`INDI` top-level node with at least one NAME-tagged child, the finished
row's NAME column holds, verbatim (unformatted), the value of the *last*
NAME-tagged child in document order (each NAME child overwrites the copy),
and the NAME column is added to the INDI table's column set. -/
theorem copy_individual_name_last (cfg : Config) (base : List String)
    (st : St) (p : Option String) (cs : List Node)
    (hc : cfg.copyIndividualNames = true)
    (hn : (cs.filter (fun c => c.tag = "NAME")).length ≠ 0) :
    ∃ last tb r,
      (cs.filter (fun c => c.tag = "NAME")).getLast? = some last ∧
      aGet (parseRecord cfg base st (Node.mk "INDI" p none cs)).tables "INDI" =
        some tb ∧
      tb.rows.getLast? = some r ∧
      rowGet r "NAME" = some last.value ∧
      "NAME" ∈ tb.columns := by
  have hne : cs.filter (fun c => c.tag = "NAME") ≠ [] := by
    intro e
    rw [e] at hn
    simp at hn
  have hlast := List.getLast?_eq_getLast _ hne
  have hpres : tableHas (ensureTable st "INDI" (setAdd [] "id")) "INDI" [] := by
    unfold tableHas
    rw [aGet_ensureTable_self]
    exact ⟨_, rfl, by simp⟩
  obtain ⟨tb1, htb1, hN⟩ :=
    processTopChildren_name_column cfg base
      (ensureTable st "INDI" (setAdd [] "id")) p [("id", p)] cs hc hne hpres
  refine ⟨(cs.filter (fun c => c.tag = "NAME")).getLast hne,
    ⟨tb1.rows ++ [(processTopChildren cfg base
        (ensureTable st "INDI" (setAdd [] "id")) "INDI" p [("id", p)] cs).2],
      tb1.columns⟩,
    (processTopChildren cfg base (ensureTable st "INDI" (setAdd [] "id"))
      "INDI" p [("id", p)] cs).2,
    hlast, ?_, ?_, ?_, ?_⟩
  · show aGet (runPlugins cfg _ _ _).tables "INDI" = _
    rw [aGet_runPlugins cfg _ _ _ "INDI" (Or.inl (by decide))]
    simp only [Node.tag_mk, Node.pointer_mk, Node.children_mk]
    rw [aGet_pushRow_self, htb1]
    rfl
  · simp
  · rw [processTopChildren_row, foldl_topRowStep_NAME cfg base hc, hlast]
  · exact hN "NAME" (by simp)

/-! ## C9: the Extra Table Plugin contract -/

/-- Spec-side formula for the built-in parents plugin (one `{child,
parent}` row per CHIL child and per resolved — truthy — spouse column of
the finished row, WIFE before HUSB), written as a direct recursion over the
children, to be compared with the source's accumulator loop. -/
def parentsRowsSpec (record : Row) : List Node → List Row
  | [] => []
  | c :: cs =>
      (if c.tag = "CHIL" then
        (match rowGet record "WIFE" with
         | some (some w) =>
             if w = "" then [] else [[("child", c.value), ("parent", some w)]]
         | _ => []) ++
        (match rowGet record "HUSB" with
         | some (some h) =>
             if h = "" then [] else [[("child", c.value), ("parent", some h)]]
         | _ => [])
      else []) ++ parentsRowsSpec record cs

theorem parentsRowsSpec_cons (record : Row) (c : Node) (cs : List Node) :
    parentsRowsSpec record (c :: cs) =
      (if c.tag = "CHIL" then
        (match rowGet record "WIFE" with
         | some (some w) =>
             if w = "" then [] else [[("child", c.value), ("parent", some w)]]
         | _ => []) ++
        (match rowGet record "HUSB" with
         | some (some h) =>
             if h = "" then [] else [[("child", c.value), ("parent", some h)]]
         | _ => [])
      else []) ++ parentsRowsSpec record cs := rfl

theorem parents_foldl (record : Row) (cs : List Node) (acc : List Row) :
    cs.foldl
      (fun results c =>
        if c.tag = "CHIL" then
          let results :=
            match rowGet record "WIFE" with
            | some (some w) =>
                if w = "" then results
                else results ++ [[("child", c.value), ("parent", some w)]]
            | _ => results
          match rowGet record "HUSB" with
          | some (some h) =>
              if h = "" then results
              else results ++ [[("child", c.value), ("parent", some h)]]
          | _ => results
        else results) acc = acc ++ parentsRowsSpec record cs := by
  induction cs generalizing acc with
  | nil => simp [parentsRowsSpec]
  | cons c cs ih =>
      rw [List.foldl_cons, ih]
      rw [parentsRowsSpec_cons]
      by_cases hch : c.tag = "CHIL"
      · rw [if_pos hch, if_pos hch]
        rcases hw : rowGet record "WIFE" with _ | ow
        · rcases hh : rowGet record "HUSB" with _ | oh
          · simp
          · rcases oh with _ | h2
            · simp
            · by_cases hhe : h2 = "" <;> simp [hhe, List.append_assoc]
        · rcases ow with _ | w
          · rcases hh : rowGet record "HUSB" with _ | oh
            · simp
            · rcases oh with _ | h2
              · simp
              · by_cases hhe : h2 = "" <;> simp [hhe, List.append_assoc]
          · by_cases hwe : w = ""
            · rcases hh : rowGet record "HUSB" with _ | oh
              · simp [hwe]
              · rcases oh with _ | h2
                · simp [hwe]
                · by_cases hhe : h2 = "" <;> simp [hwe, hhe, List.append_assoc]
            · rcases hh : rowGet record "HUSB" with _ | oh
              · simp [hwe]
              · rcases oh with _ | h2
                · simp [hwe]
                · by_cases hhe : h2 = "" <;> simp [hwe, hhe, List.append_assoc]
      · rw [if_neg hch, if_neg hch]
        simp

theorem parentsRows_eq_spec (record : Row) (tag : String) (children : List Node) :
    parentsRows record tag children =
      if tag = "FAM" then parentsRowsSpec record children else [] := by
  unfold parentsRows
  by_cases h : tag = "FAM"
  · rw [if_pos h, if_pos h]
    simpa using parents_foldl record children []
  · rw [if_neg h, if_neg h]

/-- C9.  The Extra Table Plugin step runs exactly once per top-level node,
after the node's own row and all promotion-triggered rows are finalized
(first conjunct: `parseRecord` is the plugin step applied to the
post-`pushRow` state and the finished row); with the parents-table option
on, every row the plugin returns is appended to its registered `PARENTS`
table, and the appended rows are exactly one `{child, parent}` row per
`CHIL` child and per resolved spouse column of the finished row for a
`FAM` node (second conjunct), and none for a non-`FAM` node (third
conjunct). -/
theorem extra_table_plugin_parents (cfg : Config) (base : List String)
    (st : St) (node : Node) (hp : cfg.parentsTable = true)
    (hpar : tableHas st "PARENTS" []) :
    parseRecord cfg base st node =
      runPlugins cfg
        (pushRow (processTopChildren cfg base
            (ensureTable st node.tag (setAdd [] "id")) node.tag node.pointer
            [("id", node.pointer)] node.children).1 node.tag
          (processTopChildren cfg base (ensureTable st node.tag (setAdd [] "id"))
            node.tag node.pointer [("id", node.pointer)] node.children).2)
        (processTopChildren cfg base (ensureTable st node.tag (setAdd [] "id"))
          node.tag node.pointer [("id", node.pointer)] node.children).2 node ∧
    (∃ tbA tbB,
      aGet (parseRecord cfg base st node).tables "PARENTS" = some tbA ∧
      aGet (pushRow (processTopChildren cfg base
          (ensureTable st node.tag (setAdd [] "id")) node.tag node.pointer
          [("id", node.pointer)] node.children).1 node.tag
        (processTopChildren cfg base (ensureTable st node.tag (setAdd [] "id"))
          node.tag node.pointer [("id", node.pointer)] node.children).2).tables
        "PARENTS" = some tbB ∧
      tbA.rows = tbB.rows ++
        (if node.tag = "FAM" then
          parentsRowsSpec (processTopChildren cfg base
            (ensureTable st node.tag (setAdd [] "id")) node.tag node.pointer
            [("id", node.pointer)] node.children).2 node.children
         else [])) ∧
    (∀ (r : Row) (tg : String) (chs : List Node), tg ≠ "FAM" →
      parentsRows r tg chs = []) := by
  refine ⟨rfl, ?_, fun r tg chs h => parentsRows_non_fam r tg chs h⟩
  obtain ⟨tbB, htbB, _⟩ :
      tableHas (pushRow (processTopChildren cfg base
        (ensureTable st node.tag (setAdd [] "id")) node.tag node.pointer
        [("id", node.pointer)] node.children).1 node.tag
        (processTopChildren cfg base (ensureTable st node.tag (setAdd [] "id"))
          node.tag node.pointer [("id", node.pointer)] node.children).2)
        "PARENTS" [] :=
    tableHas_pushRow _ _ _ _ _
      (processTopChildren_tableHas _ _ _ _ _ _ _ _ _
        (tableHas_ensureTable _ _ _ _ _ hpar))
  refine ⟨⟨tbB.rows ++ parentsRows (processTopChildren cfg base
      (ensureTable st node.tag (setAdd [] "id")) node.tag node.pointer
      [("id", node.pointer)] node.children).2 node.tag node.children,
    tbB.columns⟩, tbB, ?_, htbB, ?_⟩
  · show aGet (runPlugins cfg _ _ _).tables "PARENTS" = _
    unfold runPlugins
    rw [if_pos hp, aGet_pushRows_self, htbB]
    rfl
  · show tbB.rows ++ parentsRows _ node.tag node.children = _
    rw [parentsRows_eq_spec]

/-! ## Witnesses for the theorems with hypotheses -/

/-- C8 witness: an `INDI` record with NAME children `"A"` then `"B"`. -/
theorem copy_individual_name_last_witness :
    cfgN.copyIndividualNames = true ∧
    ∃ last tb r,
      (([Node.mk "NAME" none (some "A") [], Node.mk "NAME" none (some "B") []].filter
          (fun c => c.tag = "NAME"))).getLast? = some last ∧
      aGet (parseRecord cfgN ["INDI"] ⟨[], []⟩
          (Node.mk "INDI" (some "@I1@") none
            [Node.mk "NAME" none (some "A") [],
             Node.mk "NAME" none (some "B") []])).tables "INDI" = some tb ∧
      tb.rows.getLast? = some r ∧
      rowGet r "NAME" = some last.value ∧
      "NAME" ∈ tb.columns :=
  ⟨rfl,
   copy_individual_name_last cfgN ["INDI"] ⟨[], []⟩ (some "@I1@")
     [Node.mk "NAME" none (some "A") [], Node.mk "NAME" none (some "B") []]
     rfl (by decide)⟩

/-- C9 witness: the plugin contract applied at a concrete configuration and
node; the projected conjunct shows the plugin yields no rows for a
non-family tag. -/
theorem extra_table_plugin_parents_witness :
    cfgP.parentsTable = true ∧ parentsRows [] "INDI" [] = [] :=
  ⟨rfl,
   (extra_table_plugin_parents cfgP [] (initSt cfgP) (Node.mk "X" none none [])
       rfl (by unfold tableHas
               exact ⟨⟨[], ["child", "parent"]⟩, rfl, by simp⟩)).2.2 [] "INDI" []
     (by decide)⟩

/-- C3 witness: two promotions of the value `"Duke"` into `TITL` from two
`INDI` records, starting from the empty registry. -/
theorem addPromotedValue_idempotent_witness :
    pvWF ⟨[], []⟩ "TITL" ∧
    ((pvRowsOf (addPromotedValue
        (addPromotedValue ⟨[], []⟩ "INDI" (some "@I1@") "TITL" (some "Duke"))
        "INDI" (some "@I2@") "TITL" (some "Duke")) "TITL").filter
        (fun e => e.1 = vKey (some "Duke"))).length = 1 :=
  ⟨by decide,
   (addPromotedValue_idempotent ⟨[], []⟩ "INDI" "TITL" "INDI" "INDI"
      (some "@I1@") (some "@I2@") (some "Duke") (by decide) (by decide)).1⟩

/-- C6 witness: a `FAM → INDI` emission on the empty registry lands in the
table named exactly `FAM_INDI`. -/
theorem addJunctionRow_shape_witness :
    ("FAM" : String) ≠ "INDI" ∧
    ∃ tb, aGet (addJunctionRow ⟨[], []⟩ "FAM" (some "@F1@") "INDI"
        (some "@I1@")).tables ("FAM" ++ "_" ++ "INDI") = some tb ∧
      tb.rows = (match aGet (⟨[], []⟩ : St).tables ("FAM" ++ "_" ++ "INDI") with
                 | some old => old.rows
                 | none => []) ++ [[("FAM", some "@F1@"), ("INDI", some "@I1@")]] ∧
      tb.columns = (match aGet (⟨[], []⟩ : St).tables ("FAM" ++ "_" ++ "INDI") with
                    | some old => old.columns
                    | none => ["FAM", "INDI"]) ∧
      ∀ m, m ≠ "FAM" ++ "_" ++ "INDI" →
        aGet (addJunctionRow ⟨[], []⟩ "FAM" (some "@F1@") "INDI"
          (some "@I1@")).tables m = aGet (⟨[], []⟩ : St).tables m :=
  ⟨by decide,
   addJunctionRow_shape ⟨[], []⟩ "FAM" (some "@F1@") "INDI" (some "@I1@")
     (by decide)⟩

/-- C7 witness: a `TITL` child under `INDI` when `TITL` is also a top-level
table name. -/
theorem parseChild_sibling_precedence_witness :
    (Node.mk "TITL" none (some "Duke") []).tag ∈ ["INDI", "TITL"] ∧
    (Node.mk "TITL" none (some "Duke") []).tag ∈ PROMOTED_VALUES "INDI" ∧
    (parseChild cfg0 ["INDI", "TITL"] ⟨[], []⟩ "INDI" (some "@I1@")
        [("id", some "@I1@")] (Node.mk "TITL" none (some "Duke") []) =
      (addJunctionRow ⟨[], []⟩ "INDI" (some "@I1@")
        (Node.mk "TITL" none (some "Duke") []).tag
        (Node.mk "TITL" none (some "Duke") []).value,
       [("id", some "@I1@")]) ∧
     (parseChild cfg0 ["INDI", "TITL"] ⟨[], []⟩ "INDI" (some "@I1@")
        [("id", some "@I1@")] (Node.mk "TITL" none (some "Duke") [])).1.pvTables =
       (⟨[], []⟩ : St).pvTables) :=
  ⟨by decide, by decide,
   parseChild_sibling_precedence cfg0 ["INDI", "TITL"] ⟨[], []⟩ "INDI"
     (some "@I1@") [("id", some "@I1@")] (Node.mk "TITL" none (some "Duke") [])
     (by decide) (by decide)⟩

/-- C4 witness: an ordinary tag `COL` under a `T0` record. -/
theorem plain_column_collision_witness :
    LINK_ATTRIBUTES "COL" = none ∧
    ∃ tb r,
      aGet (parseRecord cfg0 ["T0"] ⟨[], []⟩
          (Node.mk "T0" (some "@P@") none
            [Node.mk "COL" none (some "a") [], Node.mk "COL" none (some "b") [],
             Node.mk "COL" none (some "c") []])).tables "T0" = some tb ∧
      tb.rows.getLast? = some r ∧
      rowGet r "COL" = some (some "a") ∧
      rowGet r ("COL" ++ "2") = some (some "b") ∧
      rowGet r ("COL" ++ "3") = some (some "c") ∧
      "COL" ∈ tb.columns ∧ ("COL" ++ "2") ∈ tb.columns ∧
      ("COL" ++ "3") ∈ tb.columns :=
  ⟨by decide,
   plain_column_collision cfg0 ["T0"] ⟨[], []⟩ "T0" (some "@P@") "COL" "a" "b" "c"
     (by decide) (by decide) (by decide) (by decide) (by decide) (by decide)⟩


/-! ## Sanity checks of the platform-primitive models -/

example : natToString 1776 = "1776" := by decide
example : toISODate (msPerDay * daysFromCivil 1776 7 4) = "1776-07-04" := by decide
example : jsDateParse "4 JUL 1776" = some (msPerDay * daysFromCivil 1776 7 4) := by decide
example : jsDateParse " 1780 " = some (msPerDay * daysFromCivil 1780 1 1) := by decide
example : jsDateParse "" = none := by decide
example : jsDateParse "Abt. 1780 - 1790" = none := by decide
example : toISODate (Int.tdiv (msPerDay * daysFromCivil 1780 1 1 + msPerDay * daysFromCivil 1790 1 1) 2) = "1784-12-31" := by decide

end GedcomToCsv

